import Mathlib

/-!
Verification of the fund-forge trading platform core against its design
specification.  The Rust sources are embedded shallowly: prices, margins and
pnl amounts are modelled as exact rationals (the source mixes f64 and
Decimal; all the arithmetic relevant to the claims is exact in either
representation), machine maps (DashMap, AHashMap, BTreeMap) are modelled as
association lists with the same insert/remove semantics, and fallible
operations return Except.  Each embedded definition keeps the name of the
source function it translates.
-/

attribute [local semireducible] Rat.add Rat.mul Rat.sub Rat.inv

namespace FF

/-- Rust f64::round: rounds half away from zero (used by
helpers/decimal_calculators.rs).  Rat.floor is used rather than the floor of
the FloorRing instance so that the definition evaluates by kernel reduction;
the lemma below identifies the two. -/
def rustRound (q : ℚ) : ℤ :=
  if 0 ≤ q then (q + 1/2).floor else -((-q + 1/2).floor)

theorem ratFloor_eq_intFloor (q : ℚ) : q.floor = ⌊q⌋ :=
  le_antisymm (Int.le_floor.2 (Rat.le_floor.1 (le_refl q.floor)))
    (Rat.le_floor.2 (Int.floor_le q))

theorem rustRound_eq (q : ℚ) :
    rustRound q = if 0 ≤ q then ⌊q + 1/2⌋ else -⌊-q + 1/2⌋ := by
  unfold rustRound
  rw [ratFloor_eq_intFloor, ratFloor_eq_intFloor]

/-- round_to_tick_size from helpers/decimal_calculators.rs:
(value / tick_size).round() * tick_size.  The subsequent string formatting
in the source only cleans up the f64 printing and does not change the value. -/
def round_to_tick_size (value : ℚ) (tick_size : ℚ) : ℚ :=
  (rustRound (value / tick_size) : ℚ) * tick_size

/-! ### Association-list helpers standing in for DashMap / AHashMap -/

/-- Lookup in an association list (DashMap::get). -/
def alookup {β : Type} (l : List (String × β)) (k : String) : Option β :=
  match l with
  | [] => none
  | (k₀, v₀) :: rest => if k₀ = k then some v₀ else alookup rest k

/-- Insert-or-replace (DashMap::insert). -/
def ainsert {β : Type} (l : List (String × β)) (k : String) (v : β) :
    List (String × β) :=
  match l with
  | [] => [(k, v)]
  | (k₀, v₀) :: rest =>
      if k₀ = k then (k, v) :: rest else (k₀, v₀) :: ainsert rest k v

/-- Remove an entry (DashMap::remove). -/
def aremove {β : Type} (l : List (String × β)) (k : String) :
    List (String × β) :=
  match l with
  | [] => []
  | (k₀, v₀) :: rest =>
      if k₀ = k then rest else (k₀, v₀) :: aremove rest k

/-- Key membership (DashMap::contains_key). -/
def acontains {β : Type} (l : List (String × β)) (k : String) : Bool :=
  (alookup l k).isSome

/-! ### Ledger and position engine
(standardized_types/accounts/ledgers.rs) -/

/-- AccountCurrency from ledgers.rs. -/
inductive AccountCurrency
  | AUD
  | USD
  | BTC
deriving DecidableEq, Repr

/-- PositionSide from enums.rs (the file is not under the sources; the two
variants are fixed by their uses in ledgers.rs). -/
inductive PositionSide
  | Long
  | Short
deriving DecidableEq, Repr

/-- OrderSide from enums.rs (fixed by its uses in ledgers.rs). -/
inductive OrderSide
  | Buy
  | Sell
deriving DecidableEq, Repr

/-- ProtectiveOrder from orders.rs (the file is not under the sources; the
three variants and their fields are fixed by the match in
Position::update_base_data). -/
inductive ProtectiveOrder
  | TakeProfit (price : ℚ)
  | StopLoss (price : ℚ)
  | TrailingStopLoss (price : ℚ) (trail_value : ℚ)
deriving DecidableEq, Repr

/-- SymbolInfo from ledgers.rs. -/
structure SymbolInfo where
  symbol_name : String
  pnl_currency : AccountCurrency
  value_per_tick : ℚ
  tick_size : ℚ
deriving DecidableEq, Repr

/-- calculate_pnl from ledgers.rs.  Note: the price difference is rounded to
tick size and then multiplied by value_per_tick * quantity; there is no
division by tick_size.  The currency arguments and the time are accepted and
ignored, exactly as in the source (the conversion call is commented out). -/
def calculate_pnl (side : PositionSide) (entry_price market_price : ℚ)
    (tick_size value_per_tick : ℚ) (quantity : ℕ)
    (_base_currency _account_currency : AccountCurrency) (_time : ℤ) : ℚ :=
  match side with
  | PositionSide.Long =>
      round_to_tick_size (market_price - entry_price) tick_size *
        (value_per_tick * (quantity : ℚ))
  | PositionSide.Short =>
      round_to_tick_size (entry_price - market_price) tick_size *
        (value_per_tick * (quantity : ℚ))

/-- Position from ledgers.rs (the id string is kept; the brokerage is carried
as its display name, it is only ever threaded through broker RPCs which are
modelled by the broker environment below). -/
structure Position where
  symbol_name : String
  brokerage : String
  side : PositionSide
  quantity : ℕ
  average_price : ℚ
  open_pnl : ℚ
  booked_pnl : ℚ
  highest_recoded_price : ℚ
  lowest_recoded_price : ℚ
  is_closed : Bool
  id : String
  symbol_info : SymbolInfo
  account_currency : AccountCurrency
  brackets : Option (List ProtectiveOrder)
deriving DecidableEq, Repr

/-- Position::enter from ledgers.rs. -/
def Position.enter (symbol_name brokerage : String) (side : PositionSide)
    (quantity : ℕ) (average_price : ℚ) (id : String)
    (symbol_info : SymbolInfo) (account_currency : AccountCurrency)
    (brackets : Option (List ProtectiveOrder)) : Position :=
  { symbol_name := symbol_name
    brokerage := brokerage
    side := side
    quantity := quantity
    average_price := average_price
    open_pnl := 0
    booked_pnl := 0
    highest_recoded_price := average_price
    lowest_recoded_price := average_price
    is_closed := false
    id := id
    symbol_info := symbol_info
    account_currency := account_currency
    brackets := brackets }

/-- Position::reduce_position_size from ledgers.rs; returns the mutated
position together with the booked pnl that the Rust method returns.
Quantities are u64 in the source; natural subtraction models the in-range
behaviour (all claims reduce by at most the open quantity). -/
def Position.reduce_position_size (p : Position) (market_price : ℚ)
    (quantity : ℕ) (time : ℤ) : Position × ℚ :=
  let booked_pnl := calculate_pnl p.side p.average_price market_price
    p.symbol_info.tick_size p.symbol_info.value_per_tick quantity
    p.symbol_info.pnl_currency p.account_currency time
  let q : ℕ := p.quantity - quantity
  let closed : Bool := decide (q ≤ 0)
  ({ p with
      booked_pnl := booked_pnl
      open_pnl := if closed then 0 else p.open_pnl - booked_pnl
      quantity := q
      is_closed := closed }, booked_pnl)

/-- Position::add_to_position from ledgers.rs.  The open pnl is recomputed
with the old quantity before the quantity is increased, exactly as in the
source. -/
def Position.add_to_position (p : Position) (market_price : ℚ)
    (quantity : ℕ) (time : ℤ) : Position :=
  let avg : ℚ := ((p.quantity : ℚ) * p.average_price +
      (quantity : ℚ) * market_price) / ((p.quantity : ℚ) + (quantity : ℚ))
  let pnl := calculate_pnl p.side avg market_price p.symbol_info.tick_size
    p.symbol_info.value_per_tick p.quantity p.symbol_info.pnl_currency
    p.account_currency time
  { p with
      average_price := avg
      open_pnl := pnl
      quantity := p.quantity + quantity }

/-- BaseDataEnum restricted to the market-data variants used by the ledger
claims.  The Fundamental arm of the source panics inside
Position::update_base_data and never reaches a ledger, so it is not
modelled; the remaining variants carry exactly the fields the ledger code
reads. -/
inductive BaseDataEnum
  | price (symbol : String) (price : ℚ)
  | candle (symbol : String) (open_ high low close volume : ℚ)
  | quoteBar (symbol : String) (bid_open bid_high bid_low bid_close
      ask_open ask_high ask_low ask_close volume : ℚ)
  | tick (symbol : String) (price volume : ℚ)
  | quote (symbol : String) (bid ask : ℚ)
deriving DecidableEq, Repr

/-- Symbol name accessor (base_data_enum.symbol().name). -/
def BaseDataEnum.symbolName : BaseDataEnum → String
  | BaseDataEnum.price s _ => s
  | BaseDataEnum.candle s _ _ _ _ _ => s
  | BaseDataEnum.quoteBar s _ _ _ _ _ _ _ _ _ => s
  | BaseDataEnum.tick s _ _ => s
  | BaseDataEnum.quote s _ _ => s

/-- Bracket scan from Position::update_base_data (ledgers.rs lines 499 to
557): the loop breaks at the first bracket whose comparison holds, otherwise
clears the flag and continues; the net result is true exactly when some
bracket fires.  The TrailingStopLoss arm compares against the stored price
and ignores trail_value, exactly as written in the source. -/
def bracket_scan (side : PositionSide) (market_price : ℚ) :
    List ProtectiveOrder → Bool
  | [] => false
  | b :: rest =>
      match b with
      | ProtectiveOrder.TakeProfit price =>
          (match side with
           | PositionSide.Long => if market_price ≥ price then true
               else bracket_scan side market_price rest
           | PositionSide.Short => if market_price ≤ price then true
               else bracket_scan side market_price rest)
      | ProtectiveOrder.StopLoss price =>
          (match side with
           | PositionSide.Long => if market_price ≤ price then true
               else bracket_scan side market_price rest
           | PositionSide.Short => if market_price ≥ price then true
               else bracket_scan side market_price rest)
      | ProtectiveOrder.TrailingStopLoss price _trail_value =>
          (match side with
           | PositionSide.Long => if market_price ≤ price then true
               else bracket_scan side market_price rest
           | PositionSide.Short => if market_price ≥ price then true
               else bracket_scan side market_price rest)

/-- First half of Position::update_base_data: the per-variant market price
extraction and the high/low/open_pnl updates done inside the match, followed
by the unconditional repetition of those updates after the match (source
lines 494 to 496).  Returns the updated position and the market price. -/
def Position.apply_market_data (p : Position) (base_data : BaseDataEnum)
    (time : ℤ) : Position × ℚ :=
  let pnl := fun (p₀ : Position) (m : ℚ) => calculate_pnl p₀.side
    p₀.average_price m p₀.symbol_info.tick_size p₀.symbol_info.value_per_tick
    p₀.quantity p₀.symbol_info.pnl_currency p₀.account_currency time
  let inner : Position × ℚ :=
    match base_data with
    | BaseDataEnum.price _ price =>
        ({ p with
            highest_recoded_price := max p.highest_recoded_price price
            lowest_recoded_price := min p.lowest_recoded_price price
            open_pnl := pnl p price }, price)
    | BaseDataEnum.candle _ _o high low close _v =>
        ({ p with
            highest_recoded_price := max p.highest_recoded_price high
            lowest_recoded_price := min p.lowest_recoded_price low
            open_pnl := pnl p close }, close)
    | BaseDataEnum.quoteBar _ _bo bid_high bid_low bid_close
        _ao ask_high ask_low ask_close _v =>
        (match p.side with
         | PositionSide.Long =>
             ({ p with
                 highest_recoded_price := max p.highest_recoded_price ask_high
                 lowest_recoded_price := min p.lowest_recoded_price ask_low
                 open_pnl := pnl p ask_close }, ask_close)
         | PositionSide.Short =>
             ({ p with
                 highest_recoded_price := max p.highest_recoded_price bid_high
                 lowest_recoded_price := min p.lowest_recoded_price bid_low
                 open_pnl := pnl p bid_close }, bid_close))
    | BaseDataEnum.tick _ price _v =>
        ({ p with
            highest_recoded_price := max p.highest_recoded_price price
            lowest_recoded_price := min p.lowest_recoded_price price
            open_pnl := pnl p price }, price)
    | BaseDataEnum.quote _ bid ask =>
        (p, match p.side with
            | PositionSide.Long => ask
            | PositionSide.Short => bid)
  let p₁ := inner.1
  let market_price := inner.2
  ({ p₁ with
      highest_recoded_price := max p₁.highest_recoded_price market_price
      lowest_recoded_price := min p₁.lowest_recoded_price market_price
      open_pnl := pnl p₁ market_price }, market_price)

/-- Position::update_base_data from ledgers.rs; returns the mutated position
and the booked amount the Rust method returns (0 when no bracket fires). -/
def Position.update_base_data (p : Position) (base_data : BaseDataEnum)
    (time : ℤ) : Position × ℚ :=
  if p.is_closed then (p, 0)
  else
    let step := p.apply_market_data base_data time
    let p₁ := step.1
    let market_price := step.2
    let bracket_triggered :=
      match p₁.brackets with
      | some brackets => bracket_scan p₁.side market_price brackets
      | none => false
    if bracket_triggered then
      let new_pnl := p₁.open_pnl
      ({ p₁ with
          booked_pnl := p₁.booked_pnl + new_pnl
          open_pnl := 0
          is_closed := true }, new_pnl)
    else (p₁, 0)

/-- Broker RPCs used by the paper ledger.
Modelled from the spec: Brokerage::margin_required_historical and
Brokerage::symbol_info are server round-trips whose implementations are not
under the sources; the spec fixes them as pure per-symbol capability lookups
(margin per contract, SymbolInfo with tick_size and value_per_tick), so they
are modelled as an environment of pure functions. -/
structure BrokerEnv where
  margin_required_historical : String → ℕ → ℚ
  symbol_info : String → Option SymbolInfo

/-- Ledger from ledgers.rs (maps become association lists). -/
structure Ledger where
  account_id : String
  brokerage : String
  cash_value : ℚ
  cash_available : ℚ
  currency : AccountCurrency
  cash_used : ℚ
  positions : List (String × Position)
  positions_closed : List (String × List Position)
  positions_counter : List (String × ℕ)
  symbol_info : List (String × SymbolInfo)
  open_pnl : ℚ
  booked_pnl : ℚ
deriving DecidableEq, Repr

/-- Ledger::paper_account_init from ledgers.rs. -/
def paper_account_init (account_id brokerage : String) (cash_value : ℚ)
    (currency : AccountCurrency) : Ledger :=
  { account_id := account_id
    brokerage := brokerage
    cash_value := cash_value
    cash_available := cash_value
    currency := currency
    cash_used := 0
    positions := []
    positions_closed := []
    positions_counter := []
    symbol_info := []
    open_pnl := 0
    booked_pnl := 0 }

/-- Ledger::update_brackets from ledgers.rs. -/
def Ledger.update_brackets (l : Ledger) (symbol_name : String)
    (brackets : List ProtectiveOrder) : Ledger :=
  match alookup l.positions symbol_name with
  | some p =>
      let p₁ := { p with brackets := some brackets }
      { l with positions := ainsert l.positions symbol_name p₁ }
  | none => l

/-- Ledger::generate_id from ledgers.rs: bumps the per-symbol position
counter and formats the id string; returns the id and the updated counter
map. -/
def Ledger.generate_id (l : Ledger) (symbol_name : String) (time : ℤ)
    (side : PositionSide) : String × List (String × ℕ) :=
  let counter :=
    match alookup l.positions_counter symbol_name with
    | some n => n + 1
    | none => 1
  let counters := ainsert l.positions_counter symbol_name counter
  let sideStr := match side with
    | PositionSide.Long => "Long"
    | PositionSide.Short => "Short"
  (l.brokerage ++ "-" ++ l.account_id ++ "-" ++ symbol_name ++ "-" ++
    toString time ++ "-" ++ toString counter ++ "-" ++ sideStr, counters)

/-- Push a closed position into positions_closed the way ledgers.rs does it
(insert a singleton vector on the first close, push otherwise). -/
def push_closed (m : List (String × List Position)) (symbol_name : String)
    (p : Position) : List (String × List Position) :=
  match alookup m symbol_name with
  | none => ainsert m symbol_name [p]
  | some ps => ainsert m symbol_name (ps ++ [p])

/-- Ledger::update_or_create_paper_position from ledgers.rs. -/
def Ledger.update_or_create_paper_position (l : Ledger) (env : BrokerEnv)
    (symbol_name : String) (quantity : ℕ) (price : ℚ) (side : OrderSide)
    (time : ℤ) (brackets : Option (List ProtectiveOrder)) :
    Except String Ledger :=
  match alookup l.positions symbol_name with
  | some existing_position =>
      let positions₀ := aremove l.positions symbol_name
      let is_reducing :=
        (existing_position.side = PositionSide.Long ∧ side = OrderSide.Sell)
        ∨ (existing_position.side = PositionSide.Short ∧ side = OrderSide.Buy)
      if is_reducing then
        let step := existing_position.reduce_position_size price quantity time
        let reduced := step.1
        let pnl := step.2
        let reduced := match brackets with
          | some new_brackets => { reduced with brackets := some new_brackets }
          | none => reduced
        let cash_available := l.cash_available + pnl
        let cash_used :=
          l.cash_used - env.margin_required_historical symbol_name quantity
        let l := { l with
          booked_pnl := l.booked_pnl + pnl
          cash_available := cash_available
          cash_used := cash_used
          cash_value := cash_available + cash_used }
        if ¬reduced.is_closed then
          Except.ok { l with positions := ainsert positions₀ symbol_name reduced }
        else
          Except.ok { l with
            positions := positions₀
            positions_closed := push_closed l.positions_closed symbol_name reduced }
      else
        let margin_required := env.margin_required_historical symbol_name quantity
        if l.cash_available < margin_required then
          Except.error "Insufficient funds"
        else
          let added := existing_position.add_to_position price quantity time
          let added := match brackets with
            | some new_brackets => { added with brackets := some new_brackets }
            | none => added
          let cash_available := l.cash_available - margin_required
          let cash_used := l.cash_used + margin_required
          Except.ok { l with
            open_pnl := l.open_pnl - existing_position.open_pnl + added.open_pnl
            cash_available := cash_available
            cash_used := cash_used
            cash_value := cash_available + cash_used
            positions := ainsert positions₀ symbol_name added }
  | none =>
      let margin_required := env.margin_required_historical symbol_name quantity
      if l.cash_available < margin_required then
        Except.error "Insufficient funds"
      else
        let info? :=
          match alookup l.symbol_info symbol_name with
          | some info => some (info, l.symbol_info)
          | none =>
              match env.symbol_info symbol_name with
              | some info => some (info, ainsert l.symbol_info symbol_name info)
              | none => none
        match info? with
        | none => Except.error ("No Symbol info for: " ++ symbol_name)
        | some (info, symbol_info_map) =>
            let pside := match side with
              | OrderSide.Buy => PositionSide.Long
              | OrderSide.Sell => PositionSide.Short
            let idStep := Ledger.generate_id l symbol_name time pside
            let position := Position.enter symbol_name l.brokerage pside
              quantity price idStep.1 info l.currency brackets
            let cash_available := l.cash_available - margin_required
            let cash_used := l.cash_used + margin_required
            Except.ok { l with
              symbol_info := symbol_info_map
              positions_counter := idStep.2
              positions := ainsert l.positions position.symbol_name position
              cash_available := cash_available
              cash_used := cash_used
              cash_value := cash_available + cash_used }

/-- Ledger::exit_position_paper from ledgers.rs. -/
def Ledger.exit_position_paper (l : Ledger) (env : BrokerEnv)
    (symbol_name : String) : Ledger :=
  match alookup l.positions symbol_name with
  | none => l
  | some old_position =>
      let positions₀ := aremove l.positions symbol_name
      let margin_freed :=
        env.margin_required_historical symbol_name old_position.quantity
      let closed := { old_position with
        is_closed := true
        booked_pnl := old_position.booked_pnl + old_position.open_pnl
        open_pnl := 0 }
      { l with
        positions := positions₀
        booked_pnl := l.booked_pnl + old_position.open_pnl
        cash_available := l.cash_available + margin_freed + old_position.open_pnl
        cash_used := l.cash_used - margin_freed
        cash_value := l.cash_value + old_position.open_pnl
        positions_closed := push_closed l.positions_closed symbol_name closed }

/-- One step of Ledger::on_data_update: the body of the time-slice loop for
a single BaseDataEnum, threading the two pnl accumulators. -/
def Ledger.on_data_step (l : Ledger) (acc : ℚ × ℚ)
    (base_data : BaseDataEnum) (time : ℤ) : Ledger × (ℚ × ℚ) :=
  let data_symbol_name := base_data.symbolName
  match alookup l.positions data_symbol_name with
  | none => (l, acc)
  | some position =>
      let step := position.update_base_data base_data time
      let p₁ := step.1
      let booked := step.2
      let acc₁ := (acc.1 + p₁.open_pnl, acc.2 + booked)
      if p₁.is_closed then
        ({ l with
            positions := aremove l.positions data_symbol_name
            positions_closed := push_closed l.positions_closed
              data_symbol_name p₁ }, acc₁)
      else
        ({ l with positions := ainsert l.positions data_symbol_name p₁ }, acc₁)

/-- Ledger::on_data_update from ledgers.rs: folds the slice, then overwrites
the open pnl with the accumulated value and adds the accumulated booked pnl. -/
def Ledger.on_data_update (l : Ledger) (time_slice : List BaseDataEnum)
    (time : ℤ) : Ledger :=
  let folded := time_slice.foldl
    (fun (s : Ledger × (ℚ × ℚ)) d => Ledger.on_data_step s.1 s.2 d time)
    (l, (0, 0))
  { folded.1 with
      open_pnl := folded.2.1
      booked_pnl := folded.1.booked_pnl + folded.2.2 }

end FF

namespace FF

/-! ### Ledger operation sequences (for the cash identity invariant) -/

/-- The ledger mutations reachable from strategy code: the three branches of
update_or_create_paper_position, exit_position_paper, on_data_update and
update_brackets. -/
inductive LedgerOp
  | updateOrCreate (symbol_name : String) (quantity : ℕ) (price : ℚ)
      (side : OrderSide) (time : ℤ) (brackets : Option (List ProtectiveOrder))
  | exitPaper (symbol_name : String)
  | onData (time_slice : List BaseDataEnum) (time : ℤ)
  | setBrackets (symbol_name : String) (brackets : List ProtectiveOrder)

/-- Apply one ledger operation; a failed order (Err return) leaves the ledger
unchanged, as at the call sites. -/
def runOp (env : BrokerEnv) (l : Ledger) : LedgerOp → Ledger
  | LedgerOp.updateOrCreate s q price side time brackets =>
      match l.update_or_create_paper_position env s q price side time brackets with
      | Except.ok l₁ => l₁
      | Except.error _ => l
  | LedgerOp.exitPaper s => l.exit_position_paper env s
  | LedgerOp.onData slice time => l.on_data_update slice time
  | LedgerOp.setBrackets s brackets => l.update_brackets s brackets

/-- Apply a sequence of ledger operations. -/
def runOps (env : BrokerEnv) (l : Ledger) (ops : List LedgerOp) : Ledger :=
  ops.foldl (runOp env) l

/-- Cash identity from the spec. -/
def cashInv (l : Ledger) : Prop :=
  l.cash_value = l.cash_available + l.cash_used

theorem cashInv_update_or_create (env : BrokerEnv) (l : Ledger)
    (s : String) (q : ℕ) (price : ℚ) (side : OrderSide) (time : ℤ)
    (brackets : Option (List ProtectiveOrder)) (l₁ : Ledger)
    (hok : l.update_or_create_paper_position env s q price side time brackets
      = Except.ok l₁) : cashInv l₁ := by
  unfold Ledger.update_or_create_paper_position at hok
  cases h : alookup l.positions s <;> simp [h] at hok
  case none =>
    split at hok
    · exact absurd hok (by simp)
    · cases hinfo : (match alookup l.symbol_info s with
        | some info => some (info, l.symbol_info)
        | none =>
            match env.symbol_info s with
            | some info => some (info, ainsert l.symbol_info s info)
            | none => none : Option (SymbolInfo × List (String × SymbolInfo)))
        <;> simp [hinfo] at hok
      case some v =>
        cases hok
        simp [cashInv]
  case some p =>
    split at hok
    · split at hok <;> (cases hok; simp [cashInv])
    · split at hok
      · exact absurd hok (by simp)
      · cases hok
        simp [cashInv]

theorem cashInv_exit (env : BrokerEnv) (l : Ledger) (s : String)
    (h : cashInv l) : cashInv (l.exit_position_paper env s) := by
  unfold Ledger.exit_position_paper
  cases hp : alookup l.positions s <;> simp [cashInv] at h ⊢
  · exact h
  · rw [h]; ring

theorem on_data_step_cash (l : Ledger) (acc : ℚ × ℚ) (d : BaseDataEnum)
    (time : ℤ) :
    (Ledger.on_data_step l acc d time).1.cash_value = l.cash_value ∧
    (Ledger.on_data_step l acc d time).1.cash_available = l.cash_available ∧
    (Ledger.on_data_step l acc d time).1.cash_used = l.cash_used := by
  simp only [Ledger.on_data_step]
  cases h : alookup l.positions d.symbolName <;> simp [h]
  split <;> simp

theorem cashInv_on_data (l : Ledger) (slice : List BaseDataEnum) (time : ℤ)
    (h : cashInv l) : cashInv (l.on_data_update slice time) := by
  unfold Ledger.on_data_update cashInv
  suffices hfold : ∀ acc : Ledger × (ℚ × ℚ), cashInv acc.1 →
      cashInv (slice.foldl
        (fun (s : Ledger × (ℚ × ℚ)) d => Ledger.on_data_step s.1 s.2 d time)
        acc).1 by
    exact hfold (l, (0, 0)) h
  intro acc hacc
  induction slice generalizing acc with
  | nil => exact hacc
  | cons d rest ih =>
      simp only [List.foldl_cons]
      apply ih
      have := on_data_step_cash acc.1 acc.2 d time
      unfold cashInv at hacc ⊢
      rw [this.1, this.2.1, this.2.2]
      exact hacc

theorem cashInv_update_brackets (l : Ledger) (s : String)
    (brackets : List ProtectiveOrder) (h : cashInv l) :
    cashInv (l.update_brackets s brackets) := by
  unfold Ledger.update_brackets
  split <;> simpa [cashInv] using h

theorem cashInv_runOp (env : BrokerEnv) (l : Ledger) (op : LedgerOp)
    (h : cashInv l) : cashInv (runOp env l op) := by
  cases op with
  | updateOrCreate s q price side time brackets =>
      unfold runOp
      cases hr : l.update_or_create_paper_position env s q price side time brackets with
      | error e => simpa [hr] using h
      | ok l₁ =>
          simpa [hr] using
            cashInv_update_or_create env l s q price side time brackets l₁ hr
  | exitPaper s => exact cashInv_exit env l s h
  | onData slice time => exact cashInv_on_data l slice time h
  | setBrackets s brackets => exact cashInv_update_brackets l s brackets h

/-- C2: Ledger cash identity: for every paper ledger created by
paper_account_init, cash_value = cash_available + cash_used holds after every
sequence of ledger operations (all branches of update_or_create_paper_position,
exit_position_paper, on_data_update, update_brackets). -/
theorem ledger_cash_identity (env : BrokerEnv) (account brokerage : String)
    (cash : ℚ) (currency : AccountCurrency) (ops : List LedgerOp) :
    (runOps env (paper_account_init account brokerage cash currency) ops).cash_value
    = (runOps env (paper_account_init account brokerage cash currency) ops).cash_available
      + (runOps env (paper_account_init account brokerage cash currency) ops).cash_used := by
  suffices hstep : ∀ l : Ledger, cashInv l → cashInv (runOps env l ops) by
    exact hstep _ (by simp [cashInv, paper_account_init])
  intro l h
  unfold runOps
  induction ops generalizing l with
  | nil => exact h
  | cons op rest ih =>
      simp only [List.foldl_cons]
      exact ih _ (cashInv_runOp env l op h)

end FF

namespace FF

/-! ### Concrete paper-trade scenario (spec section 8, scenario 4) -/

/-- Broker environment of the Test brokerage.
Modelled from the spec: margin 100 per contract and the EUR-USD SymbolInfo
with tick_size 0.0001 and value_per_tick 1 (the margin_required_historical
and symbol_info RPC implementations are not under the sources; the test
brokerage responder computes quantity * 100). -/
def testEnv : BrokerEnv :=
  { margin_required_historical := fun _ q => 100 * (q : ℚ)
    symbol_info := fun s =>
      if s = "EUR-USD" then
        some { symbol_name := "EUR-USD", pnl_currency := AccountCurrency.USD,
               value_per_tick := 1, tick_size := 1/10000 }
      else none }

/-- Paper ledger with initial cash 100 000. -/
def c1_ledger0 : Ledger :=
  paper_account_init "TestAccount1" "Test" 100000 AccountCurrency.USD

/-- Buy 2 at 1.2000. -/
def c1_after_buy : Except String Ledger :=
  c1_ledger0.update_or_create_paper_position testEnv "EUR-USD" 2 (12000/10000)
    OrderSide.Buy 0 none

/-- Then sell 1 at 1.2050. -/
def c1_after_sell : Except String Ledger :=
  match c1_after_buy with
  | Except.ok l =>
      l.update_or_create_paper_position testEnv "EUR-USD" 1 (12050/10000)
        OrderSide.Sell 1 none
  | e => e

/-- Ledger after the two orders (the error fallback is never taken, as the
theorem below asserts). -/
def c1_final : Ledger :=
  match c1_after_sell with
  | Except.ok l => l
  | Except.error _ => c1_ledger0

/-- Success flag of the second order. -/
def c1_sell_ok : Bool :=
  match c1_after_sell with
  | Except.ok _ => true
  | Except.error _ => false

/-- C1: Paper-trade reduce, evaluated on the embedded code at the input of
the claim.  Both orders succeed, and the remaining open position has
quantity 1 at average price 1.2000 as claimed, but the booked pnl is
1/200 = 0.005 (calculate_pnl rounds the price difference 0.0050 to the tick
and multiplies by value_per_tick * quantity without dividing by tick_size),
not the claimed 50; and cash_available is 99 800.005, not the claimed
99 950 (the reduce branch subtracts the released margin from cash_used but
never credits it to cash_available; contrast exit_position_paper, which
credits margin_freed to cash_available). -/
theorem paper_trade_reduce_actual :
    c1_sell_ok = true ∧
    c1_final.booked_pnl = 1/200 ∧
    c1_final.cash_available = 99800 + 1/200 ∧
    c1_final.cash_used = 100 ∧
    c1_final.cash_value = 99900 + 1/200 ∧
    (alookup c1_final.positions "EUR-USD").map
      (fun p : Position => (p.quantity, p.average_price)) = some (1, 12000/10000) ∧
    ¬ c1_final.booked_pnl = 50 ∧
    ¬ c1_final.cash_available = 99950 := by
  decide

/-! ### Bracket evaluation (C3) -/

/-- Bracket trigger conditions as the amended claim states them: TakeProfit
fires when the market price reaches it (long: price at or above tp, short:
at or below), StopLoss on the inverse comparison, and TrailingStopLoss on
exactly the same comparison as StopLoss against its stored price - the
stored price is never adjusted and trail_value is ignored. -/
def trigger_hit (side : PositionSide) (market_price : ℚ) :
    ProtectiveOrder → Bool
  | ProtectiveOrder.TakeProfit price =>
      match side with
      | PositionSide.Long => market_price ≥ price
      | PositionSide.Short => market_price ≤ price
  | ProtectiveOrder.StopLoss price =>
      match side with
      | PositionSide.Long => market_price ≤ price
      | PositionSide.Short => market_price ≥ price
  | ProtectiveOrder.TrailingStopLoss price _ =>
      match side with
      | PositionSide.Long => market_price ≤ price
      | PositionSide.Short => market_price ≥ price

theorem bracket_scan_eq_any (side : PositionSide) (m : ℚ)
    (bs : List ProtectiveOrder) :
    bracket_scan side m bs = bs.any (trigger_hit side m) := by
  induction bs with
  | nil => rfl
  | cons b rest ih =>
      cases b <;> cases side <;>
        simp only [bracket_scan, trigger_hit, List.any_cons] <;>
        split <;> simp_all

theorem apply_market_data_frame (p : Position) (d : BaseDataEnum) (time : ℤ) :
    (p.apply_market_data d time).1.brackets = p.brackets ∧
    (p.apply_market_data d time).1.booked_pnl = p.booked_pnl ∧
    (p.apply_market_data d time).1.side = p.side ∧
    (p.apply_market_data d time).1.is_closed = p.is_closed := by
  cases d <;> cases hs : p.side <;>
    simp [Position.apply_market_data, hs]

/-- C3 amended: on a price update of an open position with brackets, the
scan fires exactly when some bracket satisfies its comparison against the
extracted market price (TakeProfit: long price at or above tp, short at or
below; StopLoss: the inverse; TrailingStopLoss: identical to StopLoss with
its stored price, never adjusted by the trail); on a trigger the position
books the just-recomputed open_pnl into booked_pnl, zeroes open_pnl, sets
is_closed and returns the booked amount, and otherwise returns 0; the
bracket list itself is never modified. -/
theorem bracket_evaluation_amended (p : Position) (d : BaseDataEnum)
    (time : ℤ) (bs : List ProtectiveOrder)
    (hopen : p.is_closed = false) (hb : p.brackets = some bs) :
    ((p.update_base_data d time).1.is_closed = true
      ↔ bs.any (trigger_hit p.side (p.apply_market_data d time).2) = true) ∧
    (p.update_base_data d time).1.brackets = some bs ∧
    ((p.update_base_data d time).1.is_closed = true →
      (p.update_base_data d time).2 = (p.apply_market_data d time).1.open_pnl ∧
      (p.update_base_data d time).1.booked_pnl
        = p.booked_pnl + (p.apply_market_data d time).1.open_pnl ∧
      (p.update_base_data d time).1.open_pnl = 0) ∧
    ((p.update_base_data d time).1.is_closed = false →
      (p.update_base_data d time).2 = 0 ∧
      (p.update_base_data d time).1 = (p.apply_market_data d time).1) := by
  have hframe := apply_market_data_frame p d time
  unfold Position.update_base_data
  simp only [hopen, Bool.false_eq_true, if_false, hframe.1, hframe.2.2.1, hb,
    bracket_scan_eq_any]
  by_cases htrig : bs.any (trigger_hit p.side (p.apply_market_data d time).2) = true
  · simp [htrig, hframe.2.1]
  · simp only [Bool.not_eq_true] at htrig
    simp [htrig, hframe.1, hb, hframe.2.2.2, hopen]

/-- Position used by the C3 witness and counterexample scenarios. -/
def c3_symbol_info : SymbolInfo :=
  { symbol_name := "EUR-USD", pnl_currency := AccountCurrency.USD,
    value_per_tick := 1, tick_size := 1/10 }

/-- Long 1 at 100 with a TrailingStopLoss at 99 and trail value 1. -/
def c3_trail_pos : Position :=
  Position.enter "EUR-USD" "Test" PositionSide.Long 1 100 "id" c3_symbol_info
    AccountCurrency.USD (some [ProtectiveOrder.TrailingStopLoss 99 1])

/-- Candle with all prices at the given level. -/
def flat_candle (s : String) (x : ℚ) : BaseDataEnum :=
  BaseDataEnum.candle s x x x x 0

/-- C3 counterexample: a long position at 100 holds a TrailingStopLoss with
price 99 and trail value 1.  The market moves in the position's favour to
105; the claim says the trailing price is adjusted by the trail (to 104
here), so the following drop to 100 (which is at or below 105 - 1) must
trigger it.  In the embedded code the stored bracket is bit-for-bit
unchanged after the favourable move and the drop to 100 leaves the position
open: the TrailingStopLoss arm compares against the stored price 99 and
ignores trail_value. -/
theorem trailing_stop_never_adjusted :
    ((c3_trail_pos.update_base_data (flat_candle "EUR-USD" 105) 0).1.brackets
      = some [ProtectiveOrder.TrailingStopLoss 99 1]) ∧
    ((c3_trail_pos.update_base_data (flat_candle "EUR-USD" 105) 0).1.is_closed
      = false) ∧
    (100 : ℚ) ≤ 105 - 1 ∧
    (((c3_trail_pos.update_base_data (flat_candle "EUR-USD" 105) 0).1.update_base_data
        (flat_candle "EUR-USD" 100) 1).1.is_closed = false) := by
  decide

/-- Long 1 at 100 with a plain StopLoss at 99 (spec scenario 5), after the
price updates 100.5 and 99.2. -/
def c3_sl_pos : Position :=
  ((Position.enter "EUR-USD" "Test" PositionSide.Long 1 100 "id" c3_symbol_info
      AccountCurrency.USD (some [ProtectiveOrder.StopLoss 99])).update_base_data
    (flat_candle "EUR-USD" (201/2)) 0).1.update_base_data
    (flat_candle "EUR-USD" (992/10)) 1 |>.1

/-- Witness for the amended C3 theorem: the stop-loss scenario of the spec
(long 1 at 100, SL 99, prices 100.5, 99.2, 98.9) applied at the third
update, with the booked amount evaluated concretely: the position closes
and books round_to_tick_size(98.9 - 100) * 1 * 1 = -1.1. -/
theorem bracket_evaluation_witness :
    c3_sl_pos.is_closed = false ∧
    c3_sl_pos.brackets = some [ProtectiveOrder.StopLoss 99] ∧
    ((c3_sl_pos.update_base_data (flat_candle "EUR-USD" (989/10)) 2).1.is_closed
        = true
      ↔ [ProtectiveOrder.StopLoss 99].any
          (trigger_hit c3_sl_pos.side
            (c3_sl_pos.apply_market_data (flat_candle "EUR-USD" (989/10)) 2).2)
          = true) ∧
    [ProtectiveOrder.StopLoss 99].any
      (trigger_hit c3_sl_pos.side
        (c3_sl_pos.apply_market_data (flat_candle "EUR-USD" (989/10)) 2).2) = true ∧
    (c3_sl_pos.update_base_data (flat_candle "EUR-USD" (989/10)) 2).2 = -11/10 :=
  ⟨by decide, by decide,
    (bracket_evaluation_amended c3_sl_pos (flat_candle "EUR-USD" (989/10)) 2
      [ProtectiveOrder.StopLoss 99] (by decide) (by decide)).1,
    by decide, by decide⟩

end FF

namespace Arch

/-!
### Historical archive (ff_data_server/src/server_features/database.rs)

The store is modelled for a single (symbol, resolution, base data type)
series: the directory path components select the series and the claims all
concern one series, so a store maps a day index to the state of that day
file.  A BaseData record is modelled by the fields the archive reads:
its UTC close time in nanoseconds, its is_closed flag, and an abstract
payload standing for the remaining fields (so that overwrites are
observable).
-/

/-- BaseData record as seen by the archive. -/
structure BData where
  timeClosed : ℕ
  isClosed : Bool
  payload : ℕ
deriving DecidableEq, Repr

/-- Nanoseconds per UTC day. -/
def nsPerDay : ℕ := 86400000000000

/-- UTC day of a record (date_naive of time_closed_utc). -/
def BData.day (d : BData) : ℕ :=
  d.timeClosed / nsPerDay

/-- State of one day file: absent, present but not parseable by
BaseDataEnum::from_array_bytes, or present with the given parsed records. -/
inductive FileState
  | missing
  | corrupt
  | good (records : List BData)
deriving DecidableEq, Repr

/-- Day-indexed file store for one series. -/
def Store : Type := ℕ → FileState

/-- Store with no files. -/
def emptyStore : Store := fun _ => FileState.missing

/-- Replace one day file. -/
def Store.update (s : Store) (day : ℕ) (f : FileState) : Store :=
  fun d => if d = day then f else s d

/-- BTreeMap::insert keyed by close time, on the sorted association list
that models the map: replaces an existing entry with the same key. -/
def btreeInsert (l : List BData) (d : BData) : List BData :=
  match l with
  | [] => [d]
  | x :: xs =>
      if d.timeClosed < x.timeClosed then d :: x :: xs
      else if d.timeClosed = x.timeClosed then d :: xs
      else x :: btreeInsert xs d

/-- Collecting an iterator of (time, record) pairs into a BTreeMap:
fold of inserts (later duplicates overwrite earlier ones). -/
def btreeFromList (l : List BData) : List BData :=
  l.foldl btreeInsert []

/-- HybridStorage::save_data_to_file: reads and parses the existing file
(failure to parse is an io error surfaced to the caller), collects it into
a BTreeMap keyed by close time, inserts the new data (later writes
overwrite), and rewrites the file with the map values in ascending key
order.  A missing file is created empty by OpenOptions::create. -/
def save_data_to_file (f : FileState) (new_data : List BData) :
    Except Unit FileState :=
  match f with
  | FileState.corrupt => Except.error ()
  | FileState.missing =>
      Except.ok (FileState.good (new_data.foldl btreeInsert []))
  | FileState.good l =>
      Except.ok (FileState.good (new_data.foldl btreeInsert (btreeFromList l)))

/-- HybridStorage::save_data: returns Ok without writing when the record is
not closed, otherwise merges the single record into its day file. -/
def save_data (s : Store) (d : BData) : Except Unit Store :=
  if !d.isClosed then Except.ok s
  else
    match save_data_to_file (s d.day) [d] with
    | Except.ok f => Except.ok (s.update d.day f)
    | Except.error e => Except.error e

/-- Day-group fold of HybridStorage::save_data_bulk: writes each day group
in turn, surfacing the first failure (the source uses the question-mark
operator).  The groups of a HashMap are iterated in arbitrary order in the
source; distinct groups touch distinct files, so the first-occurrence order
used here is observationally equivalent. -/
def save_groups (s : Store) (closed : List BData) :
    List ℕ → Except Unit Store
  | [] => Except.ok s
  | d :: rest =>
      match save_data_to_file (s d) (closed.filter (fun r => r.day == d)) with
      | Except.ok f => save_groups (Store.update s d f) closed rest
      | Except.error e => Except.error e

/-- HybridStorage::save_data_bulk: drops records that are not closed, groups
the rest by UTC day, and merges each group into its day file. -/
def save_data_bulk (s : Store) (data : List BData) : Except Unit Store :=
  if data.isEmpty then Except.ok s
  else
    let closed := data.filter (fun r => r.isClosed)
    save_groups s closed ((closed.map BData.day).dedup)

/-- Per-day read step of HybridStorage::get_data_range: a file that cannot
be opened (get_or_create_mmap returns Err) is skipped, a file that opens
but does not parse hits the unwrap at database.rs:318 - modelled as none,
the panic outcome. -/
def read_day_file (f : FileState) : Option (List BData) :=
  match f with
  | FileState.missing => some []
  | FileState.corrupt => none
  | FileState.good l => some l

/-- HybridStorage::get_data_range: walks the days of [start, end],
concatenates each day file filtered to close times within the inclusive
bounds; none models the panic on an unparseable file. -/
def get_data_range (s : Store) (start endT : ℕ) : Option (List BData) :=
  let startDay := start / nsPerDay
  let endDay := endT / nsPerDay
  ((List.range (endDay + 1 - startDay)).map (fun i => startDay + i)).foldl
    (fun acc d =>
      match acc, read_day_file (s d) with
      | some a, some l =>
          some (a ++ l.filter
            (fun r => decide (start ≤ r.timeClosed) && decide (r.timeClosed ≤ endT)))
      | _, _ => none)
    (some [])

/-- Record lookup by close time (first match). -/
def findTime (l : List BData) (t : ℕ) : Option BData :=
  l.find? (fun r => r.timeClosed == t)

/-- Last write with the given close time, following the words of the claim:
a record whose close time already exists is replaced by the later write. -/
def last_write_for (l : List BData) (t : ℕ) : Option BData :=
  (l.filter (fun r => r.timeClosed == t)).getLast?

/-- Records deduplicated by close time (last write wins) and sorted
ascending by close time, following the words of the claim. -/
def dedup_by_close_time (l : List BData) : List BData :=
  (((l.map BData.timeClosed).dedup).insertionSort (· ≤ ·)).filterMap
    (last_write_for l)

/-- Strict ascending order of close times. -/
def TimeSorted (l : List BData) : Prop :=
  l.Pairwise (fun a b => a.timeClosed < b.timeClosed)

end Arch

namespace Arch

theorem mem_btreeInsert (l : List BData) (d : BData) :
    ∀ r : BData, r ∈ btreeInsert l d → r = d ∨ r ∈ l := by
  induction l with
  | nil =>
      intro r h
      simpa [btreeInsert] using h
  | cons x xs ih =>
      intro r h
      simp only [btreeInsert] at h
      by_cases h₁ : d.timeClosed < x.timeClosed
      · rw [if_pos h₁] at h
        simp only [List.mem_cons] at h
        rcases h with h | h | h
        · exact Or.inl h
        · exact Or.inr (by simp [h])
        · exact Or.inr (by simp [h])
      · rw [if_neg h₁] at h
        by_cases h₂ : d.timeClosed = x.timeClosed
        · rw [if_pos h₂] at h
          simp only [List.mem_cons] at h
          rcases h with h | h
          · exact Or.inl h
          · exact Or.inr (by simp [h])
        · rw [if_neg h₂] at h
          simp only [List.mem_cons] at h
          rcases h with h | h
          · exact Or.inr (by simp [h])
          · rcases ih r h with h₃ | h₃
            · exact Or.inl h₃
            · exact Or.inr (by simp [h₃])

theorem btreeInsert_sorted (l : List BData) (d : BData) :
    TimeSorted l → TimeSorted (btreeInsert l d) := by
  induction l with
  | nil =>
      intro _
      simp [btreeInsert, TimeSorted]
  | cons x xs ih =>
      intro h
      simp only [TimeSorted, List.pairwise_cons] at h ih ⊢
      simp only [btreeInsert]
      by_cases h₁ : d.timeClosed < x.timeClosed
      · rw [if_pos h₁]
        simp only [List.pairwise_cons]
        refine ⟨?_, h.1, h.2⟩
        intro r hr
        simp only [List.mem_cons] at hr
        rcases hr with rfl | hr
        · omega
        · have := h.1 r hr
          omega
      · rw [if_neg h₁]
        by_cases h₂ : d.timeClosed = x.timeClosed
        · rw [if_pos h₂]
          simp only [List.pairwise_cons]
          refine ⟨fun r hr => ?_, h.2⟩
          have := h.1 r hr
          omega
        · rw [if_neg h₂]
          simp only [List.pairwise_cons]
          refine ⟨?_, ih h.2⟩
          intro r hr
          rcases mem_btreeInsert xs d r hr with rfl | hmem
          · omega
          · exact h.1 r hmem

theorem findTime_btreeInsert (l : List BData) (d : BData) (t : ℕ) :
    findTime (btreeInsert l d) t =
      if t = d.timeClosed then some d else findTime l t := by
  induction l with
  | nil =>
      by_cases h : t = d.timeClosed
      · have hb : (d.timeClosed == t) = true := by simp only [beq_iff_eq]; omega
        simp [btreeInsert, findTime, List.find?, hb, h]
      · have hb : (d.timeClosed == t) = false := by simp only [beq_eq_false_iff_ne, ne_eq]; omega
        simp [btreeInsert, findTime, List.find?, hb, h]
  | cons x xs ih =>
      simp only [btreeInsert]
      by_cases h₁ : d.timeClosed < x.timeClosed
      · rw [if_pos h₁]
        by_cases h : t = d.timeClosed
        · have hb : (d.timeClosed == t) = true := by simp only [beq_iff_eq]; omega
          simp [findTime, List.find?_cons, hb, h]
        · have hb : (d.timeClosed == t) = false := by simp only [beq_eq_false_iff_ne, ne_eq]; omega
          simp [findTime, List.find?_cons, hb, h]
      · rw [if_neg h₁]
        by_cases h₂ : d.timeClosed = x.timeClosed
        · rw [if_pos h₂]
          by_cases h : t = d.timeClosed
          · have hb : (d.timeClosed == t) = true := by simp only [beq_iff_eq]; omega
            simp [findTime, List.find?_cons, hb, h]
          · have hb : (d.timeClosed == t) = false := by simp only [beq_eq_false_iff_ne, ne_eq]; omega
            have hbx : (x.timeClosed == t) = false := by simp only [beq_eq_false_iff_ne, ne_eq]; omega
            simp [findTime, List.find?_cons, hb, hbx, h]
        · rw [if_neg h₂]
          by_cases hx : x.timeClosed = t
          · have h : ¬ t = d.timeClosed := by omega
            have hbx : (x.timeClosed == t) = true := by simp only [beq_iff_eq]; omega
            simp [findTime, List.find?_cons, hbx, h]
          · have hbx : (x.timeClosed == t) = false := by simp only [beq_eq_false_iff_ne, ne_eq]; omega
            simp only [findTime] at ih ⊢
            simp [List.find?_cons, hbx, ih]

end Arch

namespace Arch

theorem foldl_btreeInsert_sorted (b : List BData) :
    ∀ m : List BData, TimeSorted m → TimeSorted (b.foldl btreeInsert m) := by
  induction b with
  | nil =>
      intro m hm
      simpa using hm
  | cons r rest ih =>
      intro m hm
      simpa [List.foldl_cons] using ih (btreeInsert m r) (btreeInsert_sorted m r hm)

theorem mem_foldl_btreeInsert (b : List BData) :
    ∀ (m : List BData) (r : BData), r ∈ b.foldl btreeInsert m → r ∈ m ∨ r ∈ b := by
  induction b with
  | nil =>
      intro m r h
      exact Or.inl (by simpa using h)
  | cons x rest ih =>
      intro m r h
      simp only [List.foldl_cons] at h
      rcases ih (btreeInsert m x) r h with h₁ | h₁
      · rcases mem_btreeInsert m x r h₁ with h₂ | h₂
        · exact Or.inr (by simp [h₂])
        · exact Or.inl h₂
      · exact Or.inr (by simp [h₁])

theorem getLast?_cons_or {α : Type} (a : α) (l : List α) :
    (a :: l).getLast? = l.getLast?.or (some a) := by
  induction l with
  | nil => rfl
  | cons b bs ih =>
      rw [List.getLast?_cons_cons]
      cases hbs : (b :: bs).getLast? with
      | none =>
          exact absurd hbs (by simp)
      | some c => rfl

theorem last_write_for_cons (r : BData) (b : List BData) (t : ℕ) :
    last_write_for (r :: b) t =
      if r.timeClosed = t then (last_write_for b t).or (some r)
      else last_write_for b t := by
  unfold last_write_for
  by_cases h : r.timeClosed = t
  · have hb : (r.timeClosed == t) = true := by simp only [beq_iff_eq]; omega
    rw [if_pos h]
    simp only [List.filter_cons, hb, if_true]
    exact getLast?_cons_or r _
  · have hb : (r.timeClosed == t) = false := by
      simp only [beq_eq_false_iff_ne, ne_eq]; omega
    rw [if_neg h]
    simp [List.filter_cons, hb]

theorem foldl_btreeInsert_findTime (b : List BData) :
    ∀ (m : List BData) (t : ℕ),
      findTime (b.foldl btreeInsert m) t = (last_write_for b t).or (findTime m t) := by
  induction b with
  | nil =>
      intro m t
      simp [last_write_for, List.foldl_nil]
  | cons r rest ih =>
      intro m t
      rw [List.foldl_cons, ih (btreeInsert m r) t, findTime_btreeInsert,
        last_write_for_cons]
      by_cases h : r.timeClosed = t
      · rw [if_pos h, if_pos h.symm]
        cases hlw : last_write_for rest t <;> simp [Option.or]
      · rw [if_neg h, if_neg (fun hc => h hc.symm)]

theorem btreeFromList_sorted (l : List BData) : TimeSorted (btreeFromList l) :=
  foldl_btreeInsert_sorted l [] (by simp [TimeSorted])

theorem btreeFromList_findTime (l : List BData) (t : ℕ) :
    findTime (btreeFromList l) t = last_write_for l t := by
  rw [btreeFromList, foldl_btreeInsert_findTime]
  cases h : last_write_for l t <;> simp [findTime, List.find?, Option.or]

theorem mem_btreeFromList (l : List BData) (r : BData)
    (h : r ∈ btreeFromList l) : r ∈ l := by
  rcases mem_foldl_btreeInsert l [] r h with h₁ | h₁
  · simp at h₁
  · exact h₁

/-- On a list with strictly sorted close times, the last write for a time is
also the first match. -/
theorem last_write_for_eq_findTime (m : List BData) (hm : TimeSorted m)
    (t : ℕ) : last_write_for m t = findTime m t := by
  induction m with
  | nil => rfl
  | cons x xs ih =>
      simp only [TimeSorted, List.pairwise_cons] at hm
      rw [last_write_for_cons]
      by_cases h : x.timeClosed = t
      · have hlw : last_write_for xs t = none := by
          unfold last_write_for
          have hfil : xs.filter (fun r => r.timeClosed == t) = [] := by
            rw [List.filter_eq_nil_iff]
            intro r hr
            have := hm.1 r hr
            simp only [beq_iff_eq]
            omega
          rw [hfil]
          rfl
        have hb : (x.timeClosed == t) = true := by simp only [beq_iff_eq]; omega
        rw [if_pos h, hlw]
        simp [findTime, List.find?_cons, hb, Option.or]
      · have hb : (x.timeClosed == t) = false := by
          simp only [beq_eq_false_iff_ne, ne_eq]; omega
        rw [if_neg h, ih hm.2]
        simp [findTime, List.find?_cons, hb]

end Arch

namespace Arch

theorem findTime_cons_self (a : BData) (l : List BData) :
    findTime (a :: l) a.timeClosed = some a := by
  simp [findTime, List.find?_cons]

theorem findTime_head_none (a : BData) (l : List BData)
    (h : ∀ r ∈ l, a.timeClosed < r.timeClosed) :
    findTime l a.timeClosed = none := by
  unfold findTime
  rw [List.find?_eq_none]
  intro r hr
  have := h r hr
  simp only [beq_iff_eq]
  omega

theorem timeSorted_ext : ∀ (l₁ l₂ : List BData), TimeSorted l₁ → TimeSorted l₂ →
    (∀ t, findTime l₁ t = findTime l₂ t) → l₁ = l₂ := by
  intro l₁
  induction l₁ with
  | nil =>
      intro l₂ _ _ hfind
      cases l₂ with
      | nil => rfl
      | cons b t₂ =>
          have := hfind b.timeClosed
          rw [findTime_cons_self] at this
          simp [findTime, List.find?] at this
  | cons a t₁ ih =>
      intro l₂ h₁ h₂ hfind
      cases l₂ with
      | nil =>
          have := hfind a.timeClosed
          rw [findTime_cons_self] at this
          simp [findTime, List.find?] at this
      | cons b t₂ =>
          simp only [TimeSorted, List.pairwise_cons] at h₁ h₂
          have hab : a = b := by
            have ha := hfind a.timeClosed
            rw [findTime_cons_self] at ha
            have hb := (hfind b.timeClosed).symm
            rw [findTime_cons_self] at hb
            by_cases hbt : b.timeClosed = a.timeClosed
            · have hbeq : (b.timeClosed == a.timeClosed) = true := by
                simp only [beq_iff_eq]; omega
              rw [show findTime (b :: t₂) a.timeClosed = some b by
                simp [findTime, List.find?_cons, hbeq]] at ha
              exact Option.some.inj ha
            · have hbeq : (b.timeClosed == a.timeClosed) = false := by
                simp only [beq_eq_false_iff_ne, ne_eq]; omega
              have haeq : (a.timeClosed == b.timeClosed) = false := by
                simp only [beq_eq_false_iff_ne, ne_eq]; omega
              simp only [findTime, List.find?_cons, hbeq] at ha
              simp only [findTime, List.find?_cons, haeq] at hb
              have hmem₁ : a ∈ t₂ := List.mem_of_find?_eq_some ha.symm
              have hmem₂ : b ∈ t₁ := List.mem_of_find?_eq_some hb.symm
              have := h₁.1 b hmem₂
              have := h₂.1 a hmem₁
              omega
          subst hab
          congr 1
          apply ih t₂ h₁.2 h₂.2
          intro t
          by_cases ht : t = a.timeClosed
          · subst ht
            rw [findTime_head_none a t₁ h₁.1, findTime_head_none a t₂ h₂.1]
          · have haeq : (a.timeClosed == t) = false := by
              simp only [beq_eq_false_iff_ne, ne_eq]; omega
            have := hfind t
            simp only [findTime, List.find?_cons, haeq] at this
            exact this

theorem last_write_for_some_of_mem (l : List BData) (t : ℕ)
    (hmem : t ∈ l.map BData.timeClosed) :
    ∃ r, last_write_for l t = some r ∧ r.timeClosed = t ∧ r ∈ l := by
  have hne : l.filter (fun r => r.timeClosed == t) ≠ [] := by
    rcases List.mem_map.1 hmem with ⟨r, hr, hrt⟩
    intro hnil
    have : r ∈ l.filter (fun r => r.timeClosed == t) :=
      List.mem_filter.2 ⟨hr, by simp only [beq_iff_eq]; omega⟩
    rw [hnil] at this
    simp at this
  cases hlast : (l.filter (fun r => r.timeClosed == t)).getLast? with
  | none =>
      exact absurd (List.getLast?_eq_none_iff.1 hlast) hne
  | some r =>
      have heq := List.getLast?_eq_getLast_of_ne_nil hne
      rw [hlast] at heq
      have hrmem : r ∈ l.filter (fun r => r.timeClosed == t) := by
        rw [Option.some.inj heq]
        exact List.getLast_mem hne
      have := List.mem_filter.1 hrmem
      refine ⟨r, hlast, ?_, this.1⟩
      have := this.2
      simp only [beq_iff_eq] at this
      omega

theorem last_write_for_none_of_not_mem (l : List BData) (t : ℕ)
    (hmem : t ∉ l.map BData.timeClosed) : last_write_for l t = none := by
  unfold last_write_for
  have hfil : l.filter (fun r => r.timeClosed == t) = [] := by
    rw [List.filter_eq_nil_iff]
    intro r hr
    simp only [beq_iff_eq]
    intro hrt
    exact hmem (List.mem_map.2 ⟨r, hr, hrt⟩)
  rw [hfil]
  rfl

theorem filterMap_lastwrite_sorted (l : List BData) :
    ∀ keys : List ℕ, keys.Pairwise (· < ·) →
      (∀ k ∈ keys, k ∈ l.map BData.timeClosed) →
      TimeSorted (keys.filterMap (last_write_for l)) := by
  intro keys
  induction keys with
  | nil =>
      intro _ _
      simp [TimeSorted]
  | cons k ks ih =>
      intro hpair hmem
      rw [List.pairwise_cons] at hpair
      rcases last_write_for_some_of_mem l k (hmem k (by simp)) with ⟨r, hr, hrt, _⟩
      rw [List.filterMap_cons, hr]
      rw [TimeSorted, List.pairwise_cons]
      constructor
      · intro r₁ hr₁
        rcases List.mem_filterMap.1 hr₁ with ⟨k₁, hk₁, hfk₁⟩
        rcases last_write_for_some_of_mem l k₁ (hmem k₁ (by simp [hk₁])) with
          ⟨r₂, hr₂, hrt₂, _⟩
        rw [hr₂] at hfk₁
        cases hfk₁
        have := hpair.1 k₁ hk₁
        omega
      · exact ih hpair.2 (fun k₁ hk₁ => hmem k₁ (by simp [hk₁]))

theorem filterMap_lastwrite_findTime (l : List BData) :
    ∀ keys : List ℕ, (∀ k ∈ keys, k ∈ l.map BData.timeClosed) → ∀ t : ℕ,
      findTime (keys.filterMap (last_write_for l)) t
        = if t ∈ keys then last_write_for l t else none := by
  intro keys
  induction keys with
  | nil =>
      intro _ t
      simp [findTime, List.find?]
  | cons k ks ih =>
      intro hmem t
      rcases last_write_for_some_of_mem l k (hmem k (by simp)) with ⟨r, hr, hrt, _⟩
      rw [List.filterMap_cons, hr]
      by_cases ht : k = t
      · have hb : (r.timeClosed == t) = true := by simp only [beq_iff_eq]; omega
        have htm : t ∈ k :: ks := by simp [ht]
        rw [if_pos htm]
        subst ht
        simp only [findTime, List.find?_cons, hb]
        exact hr.symm
      · have hb : (r.timeClosed == t) = false := by
          simp only [beq_eq_false_iff_ne, ne_eq]; omega
        rw [show findTime (r :: List.filterMap (last_write_for l) ks) t
            = findTime (List.filterMap (last_write_for l) ks) t by
          simp [findTime, List.find?_cons, hb]]
        rw [ih (fun k₁ hk₁ => hmem k₁ (by simp [hk₁])) t]
        by_cases htk : t ∈ ks
        · rw [if_pos htk, if_pos (by simp [htk])]
        · have hnotin : t ∉ k :: ks := by
            simp only [List.mem_cons, not_or]
            exact ⟨fun h => ht h.symm, htk⟩
          rw [if_neg htk, if_neg hnotin]

theorem dedup_by_close_time_sorted (l : List BData) :
    TimeSorted (dedup_by_close_time l) := by
  unfold dedup_by_close_time
  apply filterMap_lastwrite_sorted
  · have hnd : ((l.map BData.timeClosed).dedup).Nodup := List.nodup_dedup _
    have hperm := List.perm_insertionSort (· ≤ ·) ((l.map BData.timeClosed).dedup)
    have hsorted := List.sorted_insertionSort (· ≤ ·) ((l.map BData.timeClosed).dedup)
    exact List.Sorted.lt_of_le hsorted (hperm.symm.nodup hnd)
  · intro k hk
    have hperm := List.perm_insertionSort (· ≤ ·) ((l.map BData.timeClosed).dedup)
    exact (List.mem_dedup).1 (hperm.mem_iff.1 hk)

theorem dedup_by_close_time_findTime (l : List BData) (t : ℕ) :
    findTime (dedup_by_close_time l) t = last_write_for l t := by
  unfold dedup_by_close_time
  have hperm := List.perm_insertionSort (· ≤ ·) ((l.map BData.timeClosed).dedup)
  rw [filterMap_lastwrite_findTime l _
    (fun k hk => (List.mem_dedup).1 (hperm.mem_iff.1 hk)) t]
  by_cases ht : t ∈ l.map BData.timeClosed
  · rw [if_pos (hperm.mem_iff.2 ((List.mem_dedup).2 ht))]
  · rw [if_neg (fun hc => ht ((List.mem_dedup).1 (hperm.mem_iff.1 hc)))]
    exact (last_write_for_none_of_not_mem l t ht).symm

end Arch

namespace Arch

theorem getLast?_append_or {α : Type} (xs ys : List α) :
    (xs ++ ys).getLast? = ys.getLast?.or xs.getLast? := by
  induction xs with
  | nil =>
      cases hys : ys.getLast? <;> simp [Option.or, hys]
  | cons a as ih =>
      rw [List.cons_append, getLast?_cons_or, ih, getLast?_cons_or]
      cases hys : ys.getLast? <;> simp [Option.or]

theorem last_write_for_append (xs ys : List BData) (t : ℕ) :
    last_write_for (xs ++ ys) t =
      (last_write_for ys t).or (last_write_for xs t) := by
  unfold last_write_for
  rw [List.filter_append, getLast?_append_or]

theorem all_eq_dedup (D : ℕ) : ∀ l : List ℕ, l ≠ [] → (∀ x ∈ l, x = D) →
    l.dedup = [D] := by
  intro l
  induction l with
  | nil => intro h _; exact absurd rfl h
  | cons a rest ih =>
      intro _ hall
      have ha : a = D := hall a (by simp)
      cases hrest : rest with
      | nil => simp [ha, List.dedup]
      | cons b bs =>
          have hbd : rest.dedup = [D] := by
            apply ih
            · rw [hrest]; simp
            · intro x hx
              exact hall x (by simp [hx])
          have hmem : a ∈ rest := by
            have hb : b = D := hall b (by simp [hrest])
            rw [hrest, ha, ← hb]
            simp
          rw [← hrest, List.dedup_cons_of_mem hmem, hbd]

theorem save_data_bulk_nonempty (s : Store) (b : List BData) (D : ℕ)
    (hne : b ≠ []) (hclosed : ∀ r ∈ b, r.isClosed = true)
    (hday : ∀ r ∈ b, r.day = D) (m : List BData)
    (hview : read_day_file (s D) = some m) :
    save_data_bulk s b
      = Except.ok (s.update D
          (FileState.good (b.foldl btreeInsert (btreeFromList m)))) := by
  unfold save_data_bulk
  rw [if_neg (by simpa [List.isEmpty_iff] using hne)]
  have hfilter : b.filter (fun r => r.isClosed) = b :=
    List.filter_eq_self.2 (fun r hr => by simp [hclosed r hr])
  rw [hfilter]
  have hdays : (b.map BData.day).dedup = [D] := by
    apply all_eq_dedup
    · simpa using hne
    · intro x hx
      rcases List.mem_map.1 hx with ⟨r, hr, rfl⟩
      exact hday r hr
  show save_groups s b ((b.map BData.day).dedup) = _
  rw [hdays]
  unfold save_groups
  have hfday : b.filter (fun r => r.day == D) = b :=
    List.filter_eq_self.2 (fun r hr => by
      simp only [beq_iff_eq]
      simp [hday r hr])
  rw [hfday]
  cases hsD : s D with
  | missing =>
      rw [hsD] at hview
      have hm : m = [] := by
        simpa [read_day_file] using hview.symm
      subst hm
      simp [save_data_to_file, save_groups, btreeFromList]
  | corrupt =>
      rw [hsD] at hview
      simp [read_day_file] at hview
  | good l =>
      rw [hsD] at hview
      have hm : l = m := by
        simpa [read_day_file] using hview
      subst hm
      simp [save_data_to_file, save_groups]

theorem save_batches_inv (batches : List (List BData)) (D : ℕ)
    (hclosed : ∀ b ∈ batches, ∀ r ∈ b, r.isClosed = true)
    (hday : ∀ b ∈ batches, ∀ r ∈ b, r.day = D) :
    ∀ (s : Store) (acc : List BData),
      (∃ m, read_day_file (s D) = some m ∧ TimeSorted m ∧
        (∀ t, findTime m t = last_write_for acc t) ∧ (∀ r ∈ m, r ∈ acc)) →
      ∃ s' : Store, batches.foldlM save_data_bulk s = Except.ok s' ∧
        ∃ m, read_day_file (s' D) = some m ∧ TimeSorted m ∧
          (∀ t, findTime m t = last_write_for (acc ++ batches.flatten) t) ∧
          (∀ r ∈ m, r ∈ acc ++ batches.flatten) := by
  induction batches with
  | nil =>
      intro s acc hinv
      exact ⟨s, rfl, by simpa using hinv⟩
  | cons b rest ih =>
      intro s acc hinv
      rcases hinv with ⟨m, hview, hsorted, hfind, hmem⟩
      by_cases hb : b = []
      · subst hb
        have hstep : save_data_bulk s [] = Except.ok s := by
          simp [save_data_bulk]
        rcases ih (fun b₁ h₁ => hclosed b₁ (by simp [h₁]))
            (fun b₁ h₁ => hday b₁ (by simp [h₁])) s acc
            ⟨m, hview, hsorted, hfind, hmem⟩ with ⟨s', hfold, hinv'⟩
        refine ⟨s', ?_, by simpa using hinv'⟩
        simp only [List.foldlM_cons, hstep]
        exact hfold
      · have hstep := save_data_bulk_nonempty s b D hb
          (hclosed b (by simp)) (hday b (by simp)) m hview
        set m' := b.foldl btreeInsert (btreeFromList m) with hm'
        have hview' : read_day_file ((s.update D (FileState.good m')) D)
            = some m' := by
          simp [Store.update, read_day_file]
        have hsorted' : TimeSorted m' :=
          foldl_btreeInsert_sorted b (btreeFromList m) (btreeFromList_sorted m)
        have hfind' : ∀ t, findTime m' t = last_write_for (acc ++ b) t := by
          intro t
          rw [hm', foldl_btreeInsert_findTime, btreeFromList_findTime,
            last_write_for_eq_findTime m hsorted, hfind t,
            last_write_for_append]
        have hmem' : ∀ r ∈ m', r ∈ acc ++ b := by
          intro r hr
          rcases mem_foldl_btreeInsert b (btreeFromList m) r hr with h₁ | h₁
          · exact List.mem_append.2 (Or.inl (hmem r (mem_btreeFromList m r h₁)))
          · exact List.mem_append.2 (Or.inr h₁)
        rcases ih (fun b₁ h₁ => hclosed b₁ (by simp [h₁]))
            (fun b₁ h₁ => hday b₁ (by simp [h₁]))
            (s.update D (FileState.good m')) (acc ++ b)
            ⟨m', hview', hsorted', hfind', hmem'⟩ with ⟨s', hfold, mfin,
              hviewf, hsortedf, hfindf, hmemf⟩
        refine ⟨s', ?_, mfin, hviewf, ?_, ?_⟩
        · simp only [List.foldlM_cons, hstep]
          exact hfold
        · exact hsortedf
        · constructor
          · intro t
            rw [hfindf t, List.append_assoc, List.flatten_cons]
          · intro r hr
            have h₀ := hmemf r hr
            rw [List.append_assoc] at h₀
            rw [List.flatten_cons]
            exact h₀

end Arch

namespace Arch

theorem get_data_range_one_day (s : Store) (D : ℕ) (m : List BData)
    (hview : read_day_file (s D) = some m) (hday : ∀ r ∈ m, r.day = D) :
    get_data_range s (D * nsPerDay) (D * nsPerDay + (nsPerDay - 1)) = some m := by
  unfold get_data_range
  have hpos : 0 < nsPerDay := by unfold nsPerDay; omega
  have hstart : D * nsPerDay / nsPerDay = D := Nat.mul_div_cancel D hpos
  have hend : (D * nsPerDay + (nsPerDay - 1)) / nsPerDay = D := by
    rw [Nat.mul_comm D nsPerDay, Nat.mul_add_div hpos,
      Nat.div_eq_of_lt (by omega)]
    omega
  rw [hstart, hend]
  have hrange : (List.range (D + 1 - D)).map (fun i => D + i) = [D] := by
    have : D + 1 - D = 1 := by omega
    rw [this]
    rfl
  simp only [hrange, List.foldl_cons, List.foldl_nil, hview]
  have hfil : m.filter (fun r =>
      decide (D * nsPerDay ≤ r.timeClosed) &&
        decide (r.timeClosed ≤ D * nsPerDay + (nsPerDay - 1))) = m := by
    apply List.filter_eq_self.2
    intro r hr
    have hd := hday r hr
    simp only [BData.day] at hd
    simp only [Bool.and_eq_true, decide_eq_true_eq]
    unfold nsPerDay at *
    omega
  rw [hfil]
  simp

/-- C4 (amended): Archive round-trip with last-write-wins dedup, restricted
to closed records - the original claim covers open records as well, but
save_data_bulk drops those on save, as the counterexample below shows. For
any sequence of save_data_bulk calls whose records are all closed and
belong to one UTC day, every save succeeds and a full-day range query
returns exactly the records deduplicated by close time (a record whose
close time already exists in the file is replaced by the later write) and
sorted ascending by close time. -/
theorem archive_round_trip (batches : List (List BData)) (D : ℕ)
    (hclosed : ∀ b ∈ batches, ∀ r ∈ b, r.isClosed = true)
    (hday : ∀ b ∈ batches, ∀ r ∈ b, r.day = D) :
    ∃ s : Store, batches.foldlM save_data_bulk emptyStore = Except.ok s ∧
      get_data_range s (D * nsPerDay) (D * nsPerDay + (nsPerDay - 1))
        = some (dedup_by_close_time batches.flatten) := by
  have hinit : ∃ m, read_day_file (emptyStore D) = some m ∧ TimeSorted m ∧
      (∀ t, findTime m t = last_write_for ([] : List BData) t) ∧
      (∀ r ∈ m, r ∈ ([] : List BData)) := by
    refine ⟨[], rfl, by simp [TimeSorted], fun t => ?_, by simp⟩
    simp [findTime, List.find?, last_write_for, List.filter]
  rcases save_batches_inv batches D hclosed hday emptyStore [] hinit with
    ⟨s, hfold, m, hview, hsorted, hfind, hmem⟩
  refine ⟨s, hfold, ?_⟩
  have hm_day : ∀ r ∈ m, r.day = D := by
    intro r hr
    have := hmem r hr
    simp only [List.nil_append] at this
    rcases List.mem_flatten.1 this with ⟨b, hb, hrb⟩
    exact hday b hb r hrb
  rw [get_data_range_one_day s D m hview hm_day]
  congr 1
  apply timeSorted_ext m (dedup_by_close_time batches.flatten) hsorted
    (dedup_by_close_time_sorted _)
  intro t
  rw [hfind t, dedup_by_close_time_findTime, List.nil_append]

/-- Record at 09:30 UTC on day 0. -/
def r0930 : BData := ⟨34200000000000, true, 1⟩

/-- Record at 16:00 UTC on day 0. -/
def r1600 : BData := ⟨57600000000000, true, 2⟩

/-- Record at 12:00 UTC on day 0. -/
def r1200 : BData := ⟨43200000000000, true, 3⟩

/-- Witness for the archive round-trip: saving [09:30, 16:00] and then
[12:00] into the same day file and querying the full day returns the three
records sorted by close time with no duplicates. -/
theorem archive_round_trip_witness :
    (∀ b ∈ [[r0930, r1600], [r1200]], ∀ r ∈ b, r.isClosed = true) ∧
    dedup_by_close_time ([[r0930, r1600], [r1200]] : List (List BData)).flatten
      = [r0930, r1200, r1600] ∧
    (∃ s : Store,
      ([[r0930, r1600], [r1200]] : List (List BData)).foldlM save_data_bulk
        emptyStore = Except.ok s ∧
      get_data_range s (0 * nsPerDay) (0 * nsPerDay + (nsPerDay - 1))
        = some (dedup_by_close_time
            ([[r0930, r1600], [r1200]] : List (List BData)).flatten)) :=
  ⟨by decide, by decide,
    archive_round_trip [[r0930, r1600], [r1200]] 0 (by decide) (by decide)⟩

/-- Still-open record at 10:30 UTC on day 0 (is_closed = false). -/
def r1030u : BData := ⟨37800000000000, false, 4⟩

/-- C4 counterexample: the round-trip claim quantifies over any sequence of
BaseData records, but save_data_bulk (database.rs:215) silently drops
records that are not closed, so the claimed equality fails as soon as a
batch holds an open record: saving [09:30 closed, 10:30 open] succeeds, yet
the full-day query returns only the 09:30 record, while dedup-by-close-time
of everything that was saved keeps both. The round trip holds only for the
closed records, which is the amended statement proved above. -/
theorem archive_round_trip_drops_open :
    ∃ s : Store,
      ([[r0930, r1030u]] : List (List BData)).foldlM save_data_bulk emptyStore
        = Except.ok s ∧
      get_data_range s (0 * nsPerDay) (0 * nsPerDay + (nsPerDay - 1))
        = some [r0930] ∧
      dedup_by_close_time ([[r0930, r1030u]] : List (List BData)).flatten
        = [r0930, r1030u] ∧
      ([r0930] : List BData) ≠ [r0930, r1030u] :=
  ⟨_, rfl, by decide, by decide, by decide⟩

end Arch

namespace Arch

/-- The archive write operations reachable from the server: save_data on a
single record and save_data_bulk on a batch. -/
inductive ArchOp
  | single (d : BData)
  | bulk (batch : List BData)

/-- Run one archive write. -/
def runArchOp (s : Store) : ArchOp → Except Unit Store
  | ArchOp.single d => save_data s d
  | ArchOp.bulk batch => save_data_bulk s batch

/-- Run a sequence of archive writes from the empty store. -/
def runArchOps (ops : List ArchOp) : Except Unit Store :=
  ops.foldlM runArchOp emptyStore

/-- Every parseable day file of the store holds only closed records. -/
def ClosedStore (s : Store) : Prop :=
  ∀ d l, s d = FileState.good l → ∀ r ∈ l, r.isClosed = true

theorem save_data_to_file_closed (f f' : FileState) (new : List BData)
    (hf : ∀ l, f = FileState.good l → ∀ r ∈ l, r.isClosed = true)
    (hnew : ∀ r ∈ new, r.isClosed = true)
    (h : save_data_to_file f new = Except.ok f') :
    ∀ l, f' = FileState.good l → ∀ r ∈ l, r.isClosed = true := by
  intro l hl r hr
  cases f with
  | corrupt => simp [save_data_to_file] at h
  | missing =>
      simp only [save_data_to_file, Except.ok.injEq] at h
      rw [← h] at hl
      cases hl
      rcases mem_foldl_btreeInsert new [] r hr with h₁ | h₁
      · simp at h₁
      · exact hnew r h₁
  | good l₀ =>
      simp only [save_data_to_file, Except.ok.injEq] at h
      rw [← h] at hl
      cases hl
      rcases mem_foldl_btreeInsert new (btreeFromList l₀) r hr with h₁ | h₁
      · exact hf l₀ rfl r (mem_btreeFromList l₀ r h₁)
      · exact hnew r h₁

theorem save_groups_closed (closedData : List BData)
    (hclosed : ∀ r ∈ closedData, r.isClosed = true) :
    ∀ (days : List ℕ) (s s' : Store), ClosedStore s →
      save_groups s closedData days = Except.ok s' → ClosedStore s' := by
  intro days
  induction days with
  | nil =>
      intro s s' hs h
      simp only [save_groups, Except.ok.injEq] at h
      rw [← h]
      exact hs
  | cons d rest ih =>
      intro s s' hs h
      simp only [save_groups] at h
      cases hsave : save_data_to_file (s d)
          (closedData.filter (fun r => r.day == d)) with
      | error e => rw [hsave] at h; simp at h
      | ok f =>
          rw [hsave] at h
          simp only at h
          apply ih (s.update d f) s' ?_ h
          intro d₀ l hl r hr
          by_cases hd : d₀ = d
          · subst hd
            simp only [Store.update, if_pos rfl] at hl
            exact save_data_to_file_closed (s d₀) f _ (fun l₀ h₀ => hs d₀ l₀ h₀)
              (fun r₁ h₁ => hclosed r₁ (List.mem_filter.1 h₁).1) hsave l hl r hr
          · simp only [Store.update, if_neg hd] at hl
            exact hs d₀ l hl r hr

theorem runArchOp_closed (s s' : Store) (op : ArchOp) (hs : ClosedStore s)
    (h : runArchOp s op = Except.ok s') : ClosedStore s' := by
  cases op with
  | single d =>
      simp only [runArchOp, save_data] at h
      by_cases hc : d.isClosed
      · rw [if_neg (by simp [hc])] at h
        cases hsave : save_data_to_file (s d.day) [d] with
        | error e => rw [hsave] at h; simp at h
        | ok f =>
            rw [hsave] at h
            simp only [Except.ok.injEq] at h
            rw [← h]
            intro d₀ l hl r hr
            by_cases hd : d₀ = d.day
            · subst hd
              simp only [Store.update, if_pos rfl] at hl
              exact save_data_to_file_closed (s d.day) f [d]
                (fun l₀ h₀ => hs d.day l₀ h₀)
                (fun r₁ h₁ => by
                  rcases List.mem_singleton.1 h₁ with rfl
                  exact hc) hsave l hl r hr
            · simp only [Store.update, if_neg hd] at hl
              exact hs d₀ l hl r hr
      · rw [if_pos (by simp [hc])] at h
        simp only [Except.ok.injEq] at h
        rw [← h]
        exact hs
  | bulk batch =>
      simp only [runArchOp, save_data_bulk] at h
      by_cases hb : batch.isEmpty
      · rw [if_pos hb] at h
        simp only [Except.ok.injEq] at h
        rw [← h]
        exact hs
      · rw [if_neg hb] at h
        exact save_groups_closed (batch.filter (fun r => r.isClosed))
          (fun r hr => by
            have := List.mem_filter.1 hr
            simpa using this.2) _ s s' hs h

theorem except_ok_bind {ε α β : Type} (a : α) (f : α → Except ε β) :
    (Except.ok a >>= f : Except ε β) = f a := rfl

theorem except_error_bind {ε α β : Type} (e : ε) (f : α → Except ε β) :
    (Except.error e >>= f : Except ε β) = Except.error e := rfl

theorem except_pure_eq {ε α : Type} (a : α) :
    (pure a : Except ε α) = Except.ok a := rfl

theorem foldlM_runArchOp_closed (ops : List ArchOp) :
    ∀ (s₀ s : Store), ClosedStore s₀ →
      ops.foldlM runArchOp s₀ = Except.ok s → ClosedStore s := by
  induction ops with
  | nil =>
      intro s₀ s h₀ h
      simp only [List.foldlM_nil, except_pure_eq, Except.ok.injEq] at h
      rw [← h]
      exact h₀
  | cons op rest ih =>
      intro s₀ s h₀ h
      simp only [List.foldlM_cons] at h
      cases hop : runArchOp s₀ op with
      | error e =>
          rw [hop, except_error_bind] at h
          simp at h
      | ok s₁ =>
          rw [hop, except_ok_bind] at h
          exact ih s₁ s (runArchOp_closed s₀ s₁ op h₀ hop) h

theorem foldl_range_step_none (s : Store) (start endT : ℕ) (days : List ℕ) :
    days.foldl (fun acc d =>
      match acc, read_day_file (s d) with
      | some a, some l =>
          some (a ++ l.filter (fun r =>
            decide (start ≤ r.timeClosed) && decide (r.timeClosed ≤ endT)))
      | _, _ => none) (none : Option (List BData)) = none := by
  induction days with
  | nil => rfl
  | cons d rest ih => simpa using ih

theorem get_data_range_mem (s : Store) (start endT : ℕ) :
    ∀ (days : List ℕ) (acc l : List BData),
      days.foldl (fun acc d =>
        match acc, read_day_file (s d) with
        | some a, some l =>
            some (a ++ l.filter (fun r =>
              decide (start ≤ r.timeClosed) && decide (r.timeClosed ≤ endT)))
        | _, _ => none) (some acc) = some l →
      ∀ r ∈ l, r ∈ acc ∨ ∃ d ∈ days, ∃ m, read_day_file (s d) = some m ∧ r ∈ m := by
  intro days
  induction days with
  | nil =>
      intro acc l h r hr
      simp only [List.foldl_nil, Option.some.injEq] at h
      rw [← h] at hr
      exact Or.inl hr
  | cons d rest ih =>
      intro acc l h r hr
      simp only [List.foldl_cons] at h
      cases hread : read_day_file (s d) with
      | none =>
          rw [hread] at h
          simp only at h
          rw [foldl_range_step_none] at h
          simp at h
      | some m =>
          rw [hread] at h
          simp only at h
          rcases ih _ l h r hr with h₁ | ⟨d₁, hd₁, m₁, hm₁, hr₁⟩
          · rcases List.mem_append.1 h₁ with h₂ | h₂
            · exact Or.inl h₂
            · exact Or.inr ⟨d, by simp, m, hread, List.mem_of_mem_filter h₂⟩
          · exact Or.inr ⟨d₁, by simp [hd₁], m₁, hm₁, hr₁⟩

/-- C10: the archive persists only closed records: save_data returns Ok
without writing for a record with is_closed = false, save_data_bulk drops
every non-closed record before grouping and writing, and a range query on a
store produced by any sequence of saves never returns an open record. -/
theorem archive_closed_only :
    (∀ (s : Store) (d : BData), d.isClosed = false → save_data s d = Except.ok s) ∧
    (∀ (s : Store) (data : List BData),
      save_data_bulk s data = save_data_bulk s (data.filter (fun r => r.isClosed))) ∧
    (∀ (ops : List ArchOp) (s : Store), runArchOps ops = Except.ok s →
      ∀ (start endT : ℕ) (l : List BData), get_data_range s start endT = some l →
        ∀ r ∈ l, r.isClosed = true) := by
  refine ⟨?_, ?_, ?_⟩
  · intro s d hd
    simp [save_data, hd]
  · intro s data
    by_cases hdata : data.isEmpty
    · have hnil : data = [] := by simpa [List.isEmpty_iff] using hdata
      subst hnil
      rfl
    · have hfilter : (data.filter (fun r => r.isClosed)).filter
          (fun r => r.isClosed) = data.filter (fun r => r.isClosed) :=
        List.filter_eq_self.2 (fun r hr => (List.mem_filter.1 hr).2)
      by_cases hfil : (data.filter (fun r => r.isClosed)).isEmpty
      · have hnil : data.filter (fun r => r.isClosed) = [] := by
          simpa [List.isEmpty_iff] using hfil
        unfold save_data_bulk
        rw [if_neg hdata, if_pos (by simp [hnil]), hnil]
        simp [save_groups]
      · unfold save_data_bulk
        rw [if_neg hdata, if_neg (by simpa using hfil), hfilter]
  · intro ops s hops start endT l hrange r hr
    have hclosed : ClosedStore s :=
      foldlM_runArchOp_closed ops emptyStore s
        (fun d l₀ h₀ => by simp [emptyStore] at h₀) hops
    unfold get_data_range at hrange
    rcases get_data_range_mem s start endT _ [] l hrange r hr with h₁ |
        ⟨d, _, m, hm, hrm⟩
    · simp at h₁
    · cases hsd : s d with
      | missing =>
          rw [hsd] at hm
          have : m = [] := by simpa [read_day_file] using hm.symm
          rw [this] at hrm
          simp at hrm
      | corrupt =>
          rw [hsd] at hm
          simp [read_day_file] at hm
      | good lg =>
          rw [hsd] at hm
          have : lg = m := by simpa [read_day_file] using hm
          exact hclosed d lg hsd r (by rw [this]; exact hrm)

/-- Witness for C10: a single open record is accepted without being
written, and the store stays empty. -/
theorem archive_closed_only_witness :
    save_data emptyStore ⟨100, false, 7⟩ = Except.ok emptyStore :=
  archive_closed_only.1 emptyStore ⟨100, false, 7⟩ rfl

end Arch

namespace Arch

/-- Record on day 0 used by the corrupt-day scenario. -/
def c5_rec : BData := ⟨1000, true, 4⟩

/-- Store with a good day-0 file, a corrupt day-1 file and nothing else. -/
def c5_store : Store := fun d =>
  if d = 0 then FileState.good [c5_rec]
  else if d = 1 then FileState.corrupt
  else FileState.missing

/-- The same store with the corrupt file absent instead. -/
def c5_store_missing : Store := fun d =>
  if d = 0 then FileState.good [c5_rec] else FileState.missing

/-- C5, evaluated on the embedded code: a range query over three days hits
the unparseable day-1 file and panics (none), even though day 0 holds good
data and day 2 is merely missing; with the corrupt file absent the same
query skips the missing days and returns the day-0 record, showing that
only unopenable files are skipped while an unparseable one aborts the whole
query through the unwrap at database.rs line 318. -/
theorem corrupt_day_query_panics :
    get_data_range c5_store 0 (3 * nsPerDay - 1) = none ∧
    get_data_range c5_store_missing 0 (3 * nsPerDay - 1) = some [c5_rec] := by
  constructor <;> decide

/-! ### Write failures and the retry loop (C6)

The pure save functions above model the success path.  To observe write
failures, the functions below thread an environment env : n -> Bool giving
the outcome of the n-th file write the process performs, together with the
write counter. -/

/-- save_data_to_file with explicit write outcomes: parsing the existing
file happens before the write (its failure surfaces without consuming a
write outcome); the single rewrite of the file consumes one outcome. -/
def save_data_to_file_w (env : ℕ → Bool) (n : ℕ) (f : FileState)
    (new_data : List BData) : (Except Unit FileState) × ℕ :=
  match f with
  | FileState.corrupt => (Except.error (), n)
  | FileState.missing =>
      if env n then
        (Except.ok (FileState.good (new_data.foldl btreeInsert [])), n + 1)
      else (Except.error (), n + 1)
  | FileState.good l =>
      if env n then
        (Except.ok (FileState.good (new_data.foldl btreeInsert (btreeFromList l))), n + 1)
      else (Except.error (), n + 1)

/-- save_data_bulk group loop with write outcomes; the first failure is
surfaced immediately (question-mark operator in the source). -/
def save_groups_w (env : ℕ → Bool) :
    List ℕ → Store → List BData → ℕ → (Except Unit Store) × ℕ
  | [], s, _, n => (Except.ok s, n)
  | d :: rest, s, closedData, n =>
      match save_data_to_file_w env n (s d)
          (closedData.filter (fun r => r.day == d)) with
      | (Except.ok f, n₁) => save_groups_w env rest (Store.update s d f) closedData n₁
      | (Except.error e, n₁) => (Except.error e, n₁)

/-- save_data_bulk with write outcomes. -/
def save_data_bulk_w (env : ℕ → Bool) (n : ℕ) (s : Store)
    (data : List BData) : (Except Unit Store) × ℕ :=
  if data.isEmpty then (Except.ok s, n)
  else
    save_groups_w env
      (((data.filter (fun r => r.isClosed)).map BData.day).dedup) s
      (data.filter (fun r => r.isClosed)) n

/-- Retry loop around save_data_bulk in the Oanda update_historical_data
task (oanda_api/vendor_api_response.rs, MAX_RETRIES = 3): attempts the
whole save up to three times; after a failed attempt that is not the third,
the task sleeps one second.  Returns the final result, the next write
counter, and the number of one-second sleeps performed. -/
def oanda_save_retry (env : ℕ → Bool) (n : ℕ) (s : Store)
    (data : List BData) : (Except Unit Store) × ℕ × ℕ :=
  match save_data_bulk_w env n s data with
  | (Except.ok s₁, n₁) => (Except.ok s₁, n₁, 0)
  | (Except.error _, n₁) =>
      match save_data_bulk_w env n₁ s data with
      | (Except.ok s₂, n₂) => (Except.ok s₂, n₂, 1)
      | (Except.error _, n₂) =>
          match save_data_bulk_w env n₂ s data with
          | (Except.ok s₃, n₃) => (Except.ok s₃, n₃, 2)
          | (Except.error e, n₃) => (Except.error e, n₃, 2)

/-- Success discriminator. -/
def isOkE (r : Except Unit Store) : Bool :=
  match r with
  | Except.ok _ => true
  | Except.error _ => false

/-- Write environment whose first write fails and all later writes
succeed. -/
def c6_env : ℕ → Bool := fun n => decide (n ≠ 0)

/-- Closed record used by the retry scenario. -/
def c6_rec : BData := ⟨500, true, 9⟩

/-- C6 counterexample: save_data_bulk itself performs exactly one write
attempt and surfaces the failure to its caller, although the second and
third write outcomes are successes - under the claim (the save operation
retries the write up to 3 times before reporting failure) this call would
have succeeded.  The retry loop exists only in the Oanda caller, which
succeeds here on its second attempt after one one-second sleep. -/
theorem save_bulk_single_attempt :
    isOkE (save_data_bulk_w c6_env 0 emptyStore [c6_rec]).1 = false ∧
    (save_data_bulk_w c6_env 0 emptyStore [c6_rec]).2 = 1 ∧
    c6_env 1 = true ∧ c6_env 2 = true ∧
    isOkE (oanda_save_retry c6_env 0 emptyStore [c6_rec]).1 = true ∧
    (oanda_save_retry c6_env 0 emptyStore [c6_rec]).2.2 = 1 :=
  ⟨rfl, rfl, rfl, rfl, rfl, rfl⟩

/-- C6 amended: the retry happens in the Oanda historical-update caller,
not in the save functions: save_data_bulk performs a single attempt and
surfaces its first failure, and the caller loop retries the whole call up
to 3 attempts in total with a one-second sleep between consecutive
attempts, reporting failure to its surrounding task only when all three
attempts failed. -/
theorem oanda_save_retry_amended (env : ℕ → Bool) (n : ℕ) (s : Store)
    (data : List BData) :
    (isOkE (save_data_bulk_w env n s data).1 = true →
      oanda_save_retry env n s data
        = ((save_data_bulk_w env n s data).1,
            (save_data_bulk_w env n s data).2, 0)) ∧
    (isOkE (save_data_bulk_w env n s data).1 = false →
      isOkE (save_data_bulk_w env (save_data_bulk_w env n s data).2 s data).1 = true →
      oanda_save_retry env n s data
        = ((save_data_bulk_w env (save_data_bulk_w env n s data).2 s data).1,
            (save_data_bulk_w env (save_data_bulk_w env n s data).2 s data).2, 1)) ∧
    (isOkE (save_data_bulk_w env n s data).1 = false →
      isOkE (save_data_bulk_w env (save_data_bulk_w env n s data).2 s data).1 = false →
      oanda_save_retry env n s data
        = ((save_data_bulk_w env
              (save_data_bulk_w env (save_data_bulk_w env n s data).2 s data).2 s data).1,
            (save_data_bulk_w env
              (save_data_bulk_w env (save_data_bulk_w env n s data).2 s data).2 s data).2,
            2)) := by
  unfold oanda_save_retry
  cases h₁ : save_data_bulk_w env n s data with
  | mk r₁ n₁ =>
      cases r₁ with
      | ok s₁ => exact ⟨fun _ => by simp, fun hko => by simp [isOkE] at hko,
          fun hko => by simp [isOkE] at hko⟩
      | error e₁ =>
          cases h₂ : save_data_bulk_w env n₁ s data with
          | mk r₂ n₂ =>
              cases r₂ with
              | ok s₂ => exact ⟨fun hok => by simp [isOkE] at hok,
                  fun _ _ => by simp [h₂], fun _ hko => by simp [isOkE] at hko⟩
              | error e₂ =>
                  cases h₃ : save_data_bulk_w env n₂ s data with
                  | mk r₃ n₃ =>
                      exact ⟨fun hok => by simp [isOkE] at hok,
                        fun _ hok => by simp [isOkE] at hok,
                        fun _ _ => by
                          simp only [h₂, h₃]
                          cases r₃ <;> rfl⟩

/-- Witness for the amended C6 theorem: with every write failing, the
caller loop performs three attempts, two one-second sleeps, and reports
failure. -/
theorem oanda_save_retry_witness :
    isOkE (save_data_bulk_w (fun _ => false) 0 emptyStore [c6_rec]).1 = false ∧
    oanda_save_retry (fun _ => false) 0 emptyStore [c6_rec]
      = ((save_data_bulk_w (fun _ => false)
            (save_data_bulk_w (fun _ => false)
              (save_data_bulk_w (fun _ => false) 0 emptyStore [c6_rec]).2
              emptyStore [c6_rec]).2 emptyStore [c6_rec]).1,
          (save_data_bulk_w (fun _ => false)
            (save_data_bulk_w (fun _ => false)
              (save_data_bulk_w (fun _ => false) 0 emptyStore [c6_rec]).2
              emptyStore [c6_rec]).2 emptyStore [c6_rec]).2, 2) :=
  ⟨rfl, (oanda_save_retry_amended (fun _ => false) 0 emptyStore [c6_rec]).2.2
      rfl rfl⟩

end Arch

namespace FF

/-!
### Heikin-Ashi consolidator (consolidators/heikinashi.rs)

Input candles carry the fields the consolidator reads plus their open time
and resolution duration in nanoseconds; a datum's time_created_utc is its
open time plus its resolution duration.  The consolidator state keeps the
fields of the source struct; the RollingWindow history only mirrors the
emitted closed bars and is not modelled separately.
-/

/-- Input candle for the Heikin-Ashi consolidator. -/
structure InCandle where
  open_ : ℚ
  high : ℚ
  low : ℚ
  close : ℚ
  volume : ℚ
  time : ℕ
  resNanos : ℕ
deriving DecidableEq, Repr

/-- Output Heikin-Ashi candle (the Candle fields the consolidator writes). -/
structure HACandle where
  open_ : ℚ
  high : ℚ
  low : ℚ
  close : ℚ
  volume : ℚ
  range : ℚ
  time : ℕ
  is_closed : Bool
deriving DecidableEq, Repr

/-- Modelled from the spec: open_time from consolidators/candlesticks.rs is
not under the sources; the spec fixes the bar boundary as
floor(time, resolution_duration). -/
def open_time (resNanos t : ℕ) : ℕ :=
  t / resNanos * resNanos

/-- HeikinAshiConsolidator state (heikinashi.rs); resNanos is the duration
of the subscription resolution. -/
structure HeikinAshiConsolidator where
  current_data : Option HACandle
  previous_ha_close : ℚ
  previous_ha_open : ℚ
  tick_size : ℚ
  resNanos : ℕ
deriving DecidableEq, Repr

/-- Fresh consolidator as built by HeikinAshiConsolidator::new. -/
def freshHA (tick_size : ℚ) (resNanos : ℕ) : HeikinAshiConsolidator :=
  { current_data := none
    previous_ha_close := 0
    previous_ha_open := 0
    tick_size := tick_size
    resNanos := resNanos }

/-- new_heikin_ashi_candle, Candle arm (heikinashi.rs lines 44 to 60): the
previous HA values are seeded from the first candle when both are still
zero, the HA prices are computed and rounded to tick size, and the
previous values are updated for the next bar. -/
def new_heikin_ashi_candle (s : HeikinAshiConsolidator) (candle : InCandle) :
    HeikinAshiConsolidator × HACandle :=
  let prev : ℚ × ℚ :=
    if s.previous_ha_close = 0 ∧ s.previous_ha_open = 0 then
      (candle.open_, candle.close)
    else (s.previous_ha_open, s.previous_ha_close)
  let ha_close := round_to_tick_size
    ((candle.open_ + candle.high + candle.low + candle.close) / 4) s.tick_size
  let ha_open := round_to_tick_size ((prev.1 + prev.2) / 2) s.tick_size
  let ha_high := max (max candle.high ha_open) ha_close
  let ha_low := min (min candle.low ha_open) ha_close
  ({ s with previous_ha_close := ha_close, previous_ha_open := ha_open },
   { open_ := ha_open
     high := ha_high
     low := ha_low
     close := ha_close
     volume := candle.volume
     range := ha_high - ha_low
     time := open_time s.resNanos candle.time
     is_closed := false })

/-- HeikinAshiConsolidator::update for candle input (heikinashi.rs lines
180 to 237): opens a bar if none is current; closes the current bar and
opens a new one when the incoming datum's created time has reached the
current bar's created time; otherwise merges the raw prices into the
current bar. -/
def HeikinAshiConsolidator.update (s : HeikinAshiConsolidator)
    (candle : InCandle) : HeikinAshiConsolidator × List HACandle :=
  match s.current_data with
  | none =>
      let step := new_heikin_ashi_candle s candle
      ({ step.1 with current_data := some step.2 }, [step.2])
  | some current_bar =>
      if candle.time + candle.resNanos ≥ current_bar.time + s.resNanos then
        let consolidated := { current_bar with is_closed := true }
        let step := new_heikin_ashi_candle s candle
        ({ step.1 with current_data := some step.2 }, [consolidated, step.2])
      else
        let updated := { current_bar with
          high := max candle.high current_bar.high
          low := min candle.low current_bar.low
          close := candle.close
          range := max candle.high current_bar.high - min candle.low current_bar.low
          volume := current_bar.volume + candle.volume }
        ({ s with current_data := some updated }, [updated])

/-- Feed a list of candles in order through update, concatenating the
emitted data. -/
def updateMany (s : HeikinAshiConsolidator) :
    List InCandle → HeikinAshiConsolidator × List HACandle
  | [] => (s, [])
  | c :: rest =>
      let step := s.update c
      let next := updateMany step.1 rest
      (next.1, step.2 ++ next.2)

/-- The four HA prices of an output bar. -/
structure SpecHA where
  ha_open : ℚ
  ha_high : ℚ
  ha_low : ℚ
  ha_close : ℚ
deriving DecidableEq, Repr

/-- HA price view of an output candle. -/
def HACandle.toSpec (b : HACandle) : SpecHA :=
  { ha_open := b.open_, ha_high := b.high, ha_low := b.low, ha_close := b.close }

/-- One step of the Heikin-Ashi recurrence following the words of the
claim: ha_close = (O+H+L+C)/4, ha_open = (prev_ha_open + prev_ha_close)/2,
ha_high = max(H, ha_open, ha_close), ha_low = min(L, ha_open, ha_close),
prices rounded to tick_size. -/
def ha_spec_step (tick prev_open prev_close : ℚ) (c : InCandle) : SpecHA :=
  let ha_close := round_to_tick_size ((c.open_ + c.high + c.low + c.close) / 4) tick
  let ha_open := round_to_tick_size ((prev_open + prev_close) / 2) tick
  { ha_open := ha_open
    ha_high := max c.high (max ha_open ha_close)
    ha_low := min c.low (min ha_open ha_close)
    ha_close := ha_close }

/-- The spec recurrence iterated from given previous HA values. -/
def ha_spec_from (tick prev_open prev_close : ℚ) : List InCandle → List SpecHA
  | [] => []
  | c :: rest =>
      let b := ha_spec_step tick prev_open prev_close c
      b :: ha_spec_from tick b.ha_open b.ha_close rest

/-- The spec recurrence with prev_ha_open and prev_ha_close seeded from the
first bar's open and close. -/
def ha_spec (tick : ℚ) : List InCandle → List SpecHA
  | [] => []
  | c :: rest =>
      let b := ha_spec_step tick c.open_ c.close c
      b :: ha_spec_from tick b.ha_open b.ha_close rest

/-- All emitted closed bars followed by the still-open current bar, as HA
prices. -/
def closedAndCurrent (r : HeikinAshiConsolidator × List HACandle) :
    List SpecHA :=
  (r.2.filter (fun b => b.is_closed)).map HACandle.toSpec ++
    (match r.1.current_data with
     | some b => [b.toSpec]
     | none => [])

end FF

namespace FF

theorem round_ge_tick (tick v : ℚ) (ht : 0 < tick) (hv : tick ≤ v) :
    tick ≤ round_to_tick_size v tick := by
  unfold round_to_tick_size
  rw [rustRound_eq]
  have hq : (1 : ℚ) ≤ v / tick := (one_le_div ht).2 hv
  rw [if_pos (by linarith)]
  have hfl : (1 : ℤ) ≤ ⌊v / tick + 1/2⌋ := by
    rw [Int.le_floor]
    push_cast
    linarith
  calc tick = 1 * tick := (one_mul tick).symm
    _ ≤ (⌊v / tick + 1/2⌋ : ℚ) * tick := by
        apply mul_le_mul_of_nonneg_right _ (le_of_lt ht)
        exact_mod_cast hfl

theorem new_ha_candle_spec (s : HeikinAshiConsolidator) (c : InCandle)
    (hprev : ¬(s.previous_ha_close = 0 ∧ s.previous_ha_open = 0)) :
    ((new_heikin_ashi_candle s c).2).toSpec
      = ha_spec_step s.tick_size s.previous_ha_open s.previous_ha_close c := by
  unfold new_heikin_ashi_candle ha_spec_step HACandle.toSpec
  rw [if_neg hprev]
  simp [max_assoc, min_assoc]

theorem new_ha_candle_spec_seed (s : HeikinAshiConsolidator) (c : InCandle)
    (hprev : s.previous_ha_close = 0 ∧ s.previous_ha_open = 0) :
    ((new_heikin_ashi_candle s c).2).toSpec
      = ha_spec_step s.tick_size c.open_ c.close c := by
  unfold new_heikin_ashi_candle ha_spec_step HACandle.toSpec
  rw [if_pos hprev]
  simp [max_assoc, min_assoc]

theorem new_ha_candle_frame (s : HeikinAshiConsolidator) (c : InCandle) :
    (new_heikin_ashi_candle s c).1.previous_ha_open
        = ((new_heikin_ashi_candle s c).2).open_ ∧
    (new_heikin_ashi_candle s c).1.previous_ha_close
        = ((new_heikin_ashi_candle s c).2).close ∧
    (new_heikin_ashi_candle s c).1.tick_size = s.tick_size ∧
    (new_heikin_ashi_candle s c).1.resNanos = s.resNanos ∧
    ((new_heikin_ashi_candle s c).2).is_closed = false ∧
    ((new_heikin_ashi_candle s c).2).time = open_time s.resNanos c.time ∧
    ((new_heikin_ashi_candle s c).2).close
      = round_to_tick_size ((c.open_ + c.high + c.low + c.close) / 4)
          s.tick_size := by
  unfold new_heikin_ashi_candle
  by_cases hprev : s.previous_ha_close = 0 ∧ s.previous_ha_open = 0
  · rw [if_pos hprev]
    exact ⟨rfl, rfl, rfl, rfl, rfl, rfl, rfl⟩
  · rw [if_neg hprev]
    exact ⟨rfl, rfl, rfl, rfl, rfl, rfl, rfl⟩

theorem toSpec_open (b : SpecHA) (x : HACandle) (h : x.toSpec = b) :
    x.open_ = b.ha_open ∧ x.close = b.ha_close := by
  rw [← h]
  exact ⟨rfl, rfl⟩

theorem updateMany_run (tick : ℚ) (resN : ℕ) (htick : 0 < tick) :
    ∀ (candles : List InCandle) (s : HeikinAshiConsolidator) (cur : HACandle),
      s.current_data = some cur →
      s.tick_size = tick → s.resNanos = resN →
      s.previous_ha_open = cur.open_ → s.previous_ha_close = cur.close →
      cur.is_closed = false → tick ≤ cur.close →
      (∀ c ∈ candles, c.resNanos = resN ∧ tick ≤ c.open_ ∧ tick ≤ c.high ∧
        tick ≤ c.low ∧ tick ≤ c.close) →
      (∀ c ∈ candles, cur.time ≤ c.time) →
      candles.Pairwise (fun a b => a.time ≤ b.time) →
      closedAndCurrent (updateMany s candles)
        = cur.toSpec :: ha_spec_from tick cur.open_ cur.close candles := by
  intro candles
  induction candles with
  | nil =>
      intro s cur hcur htk hres hpo hpc hclosed htle hfields htimes hpair
      simp [updateMany, closedAndCurrent, hcur, ha_spec_from]
  | cons c rest ih =>
      intro s cur hcur htk hres hpo hpc hclosed htle hfields htimes hpair
      have hcfields := hfields c (by simp)
      have hctime := htimes c (by simp)
      have hprev : ¬(s.previous_ha_close = 0 ∧ s.previous_ha_open = 0) := by
        intro hz
        rw [hpc] at hz
        have := hz.1
        linarith
      have hcond : c.time + c.resNanos ≥ cur.time + s.resNanos := by
        rw [hcfields.1, hres]
        omega
      have hspec := new_ha_candle_spec s c hprev
      rw [htk, hpo, hpc] at hspec
      have hframe := new_ha_candle_frame s c
      set step := new_heikin_ashi_candle s c with hstep
      set newBar := step.2 with hnb
      have hopenclose := toSpec_open _ newBar hspec
      have hupdate : s.update c =
          ({ step.1 with current_data := some newBar },
            [{ cur with is_closed := true }, newBar]) := by
        unfold HeikinAshiConsolidator.update
        rw [hcur]
        simp only [ge_iff_le, hstep]
        rw [if_pos hcond]
      have hnewclose : tick ≤ newBar.close := by
        rw [hnb, hframe.2.2.2.2.2.2, htk]
        apply round_ge_tick tick _ htick
        have h₁ := hcfields.2.1
        have h₂ := hcfields.2.2.1
        have h₃ := hcfields.2.2.2.1
        have h₄ := hcfields.2.2.2.2
        linarith
      have htail := ih { step.1 with current_data := some newBar } newBar
        rfl (by simp [hframe.2.2.1, htk]) (by simp [hframe.2.2.2.1, hres])
        (by simp [hframe.1]) (by simp [hframe.2.1])
        hframe.2.2.2.2.1 hnewclose
        (fun c₁ h₁ => hfields c₁ (by simp [h₁]))
        (fun c₁ h₁ => by
          have hnt : newBar.time = open_time resN c.time := by
            rw [hnb, hframe.2.2.2.2.2.1, hres]
          rw [hnt]
          have h₂ : open_time resN c.time ≤ c.time := Nat.div_mul_le_self _ _
          have h₃ := (List.pairwise_cons.1 hpair).1 c₁ h₁
          omega)
        (List.pairwise_cons.1 hpair).2
      show closedAndCurrent (updateMany s (c :: rest)) = _
      have hum : updateMany s (c :: rest)
          = ((updateMany ({ step.1 with current_data := some newBar }) rest).1,
             [{ cur with is_closed := true }, newBar]
               ++ (updateMany ({ step.1 with current_data := some newBar }) rest).2) := by
        simp only [updateMany, hupdate]
      rw [hum]
      unfold closedAndCurrent at htail ⊢
      rw [List.filter_append]
      have hnbopen : newBar.is_closed = false := hframe.2.2.2.2.1
      have hfil : List.filter (fun b => b.is_closed)
          [{ cur with is_closed := true }, newBar] = [{ cur with is_closed := true }] := by
        simp [List.filter, hnbopen]
      rw [hfil]
      simp only [List.map_cons, List.map_nil, List.cons_append, List.nil_append,
        List.map_append, ha_spec_from]
      have hcurspec : ({ cur with is_closed := true } : HACandle).toSpec
          = cur.toSpec := rfl
      rw [hcurspec]
      congr 1
      rw [← hopenclose.1, ← hopenclose.2, ← hspec]
      exact htail

end FF

namespace FF

/-- C8: Heikin-Ashi seeding and recurrence: feeding candles in order (one
output bar per input at the subscription resolution), every output bar
satisfies ha_close = (O+H+L+C)/4, ha_open = (prev_ha_open+prev_ha_close)/2,
ha_high = max(H, ha_open, ha_close), ha_low = min(L, ha_open, ha_close),
prices rounded to tick_size, with the previous values seeded from the first
candle's open and close. -/
theorem heikin_ashi_recurrence (tick : ℚ) (resN : ℕ) (candles : List InCandle)
    (htick : 0 < tick)
    (hfields : ∀ c ∈ candles, c.resNanos = resN ∧ tick ≤ c.open_ ∧
      tick ≤ c.high ∧ tick ≤ c.low ∧ tick ≤ c.close)
    (htimes : candles.Pairwise (fun a b => a.time ≤ b.time)) :
    closedAndCurrent (updateMany (freshHA tick resN) candles)
      = ha_spec tick candles := by
  cases candles with
  | nil => rfl
  | cons c rest =>
      have hcfields := hfields c (by simp)
      have hspec := new_ha_candle_spec_seed (freshHA tick resN) c ⟨rfl, rfl⟩
      have hframe := new_ha_candle_frame (freshHA tick resN) c
      rw [show (freshHA tick resN).tick_size = tick from rfl] at hspec hframe
      rw [show (freshHA tick resN).resNanos = resN from rfl] at hframe
      set step := new_heikin_ashi_candle (freshHA tick resN) c with hstep
      set newBar := step.2 with hnb
      have hopenclose := toSpec_open _ newBar hspec
      have hupdate : (freshHA tick resN).update c
          = ({ step.1 with current_data := some newBar }, [newBar]) := by
        unfold HeikinAshiConsolidator.update freshHA
        rfl
      have hnewclose : tick ≤ newBar.close := by
        rw [hnb, hframe.2.2.2.2.2.2]
        apply round_ge_tick tick _ htick
        have h₁ := hcfields.2.1
        have h₂ := hcfields.2.2.1
        have h₃ := hcfields.2.2.2.1
        have h₄ := hcfields.2.2.2.2
        linarith
      have htail := updateMany_run tick resN htick rest
        ({ step.1 with current_data := some newBar }) newBar
        rfl (by simp [hframe.2.2.1]) (by simp [hframe.2.2.2.1])
        (by simp [hframe.1]) (by simp [hframe.2.1])
        hframe.2.2.2.2.1 hnewclose
        (fun c₁ h₁ => hfields c₁ (by simp [h₁]))
        (fun c₁ h₁ => by
          have hnt : newBar.time = open_time resN c.time := hframe.2.2.2.2.2.1
          rw [hnt]
          have h₂ : open_time resN c.time ≤ c.time := Nat.div_mul_le_self _ _
          have h₃ := (List.pairwise_cons.1 htimes).1 c₁ h₁
          omega)
        (List.pairwise_cons.1 htimes).2
      have hum : updateMany (freshHA tick resN) (c :: rest)
          = ((updateMany ({ step.1 with current_data := some newBar }) rest).1,
             [newBar]
               ++ (updateMany ({ step.1 with current_data := some newBar }) rest).2) := by
        simp only [updateMany, hupdate]
      rw [hum]
      unfold closedAndCurrent at htail ⊢
      rw [List.filter_append]
      have hnbopen : newBar.is_closed = false := hframe.2.2.2.2.1
      have hfil : List.filter (fun b => b.is_closed) [newBar] = [] := by
        simp [List.filter, hnbopen]
      rw [hfil]
      simp only [List.nil_append, ha_spec]
      rw [← hopenclose.1, ← hopenclose.2, ← hspec]
      exact htail

/-- First input candle of the spec scenario: O=10, H=12, L=9, C=11. -/
def ha_c1 : InCandle := ⟨10, 12, 9, 11, 1, 0, 60⟩

/-- Second input candle of the spec scenario: O=11, H=13, L=10, C=12. -/
def ha_c2 : InCandle := ⟨11, 13, 10, 12, 1, 60, 60⟩

/-- Witness for the Heikin-Ashi recurrence: the two-candle scenario of the
claim produces the first HA bar (open 10.5, high 12, low 9, close 10.5)
and the second HA bar (open 10.5, high 13, low 10, close 11.5). -/
theorem heikin_ashi_recurrence_witness :
    ha_spec (1/10) [ha_c1, ha_c2]
      = [⟨21/2, 12, 9, 21/2⟩, ⟨21/2, 13, 10, 23/2⟩] ∧
    closedAndCurrent (updateMany (freshHA (1/10) 60) [ha_c1, ha_c2])
      = [⟨21/2, 12, 9, 21/2⟩, ⟨21/2, 13, 10, 23/2⟩] :=
  ⟨by decide,
    (heikin_ashi_recurrence (1/10) 60 [ha_c1, ha_c2] (by decide) (by decide)
      (by decide)).trans (by decide)⟩

end FF

namespace Subs

/-!
### Subscription handler (strategies/handlers/subscription_handler.rs)

The SymbolSubscriptionHandler decision tree and its two maps are embedded;
a stored ConsolidatorEnum is represented by its subscription (the only
field the handler logic reads, via consolidator.subscription()), and the
returned RollingWindow history is not modelled (it does not affect the maps
or the decision).
-/

/-- Generic association-list lookup (DashMap::get / AHashMap::get). -/
def klookup {κ β : Type} [DecidableEq κ] (l : List (κ × β)) (k : κ) : Option β :=
  match l with
  | [] => none
  | (k₀, v₀) :: rest => if k₀ = k then some v₀ else klookup rest k

/-- Generic insert-or-replace (insert). -/
def kinsert {κ β : Type} [DecidableEq κ] (l : List (κ × β)) (k : κ) (v : β) :
    List (κ × β) :=
  match l with
  | [] => [(k, v)]
  | (k₀, v₀) :: rest =>
      if k₀ = k then (k, v) :: rest else (k₀, v₀) :: kinsert rest k v

/-- Generic entry removal (remove). -/
def kremove {κ β : Type} [DecidableEq κ] (l : List (κ × β)) (k : κ) :
    List (κ × β) :=
  match l with
  | [] => []
  | (k₀, v₀) :: rest =>
      if k₀ = k then rest else (k₀, v₀) :: kremove rest k

/-- Modelled from the spec: Resolution (standardized_types/resolution.rs is
not under the sources).  Instant, Ticks(n), Seconds(n), Minutes(n),
Hours(n); the ordering is total on the duration equivalent, with Instant
below everything, Ticks(n) between Instant and the timed resolutions and
ordered by n, and timed resolutions ordered by duration. -/
inductive Resolution
  | instant
  | ticks (n : ℕ)
  | seconds (n : ℕ)
  | minutes (n : ℕ)
  | hours (n : ℕ)
deriving DecidableEq, Repr

/-- Order key: class then duration in nanoseconds (ticks by count). -/
def Resolution.orderKey : Resolution → ℕ × ℕ
  | Resolution.instant => (0, 0)
  | Resolution.ticks n => (1, n)
  | Resolution.seconds n => (2, n * 1000000000)
  | Resolution.minutes n => (2, n * 60000000000)
  | Resolution.hours n => (2, n * 3600000000000)

/-- Strict comparison of resolutions. -/
def Resolution.rlt (a b : Resolution) : Bool :=
  decide (a.orderKey.1 < b.orderKey.1 ∨
    (a.orderKey.1 = b.orderKey.1 ∧ a.orderKey.2 < b.orderKey.2))

/-- BaseDataType (base_data/base_data_type.rs is not under the sources; the
five variants are fixed by their uses across the handler). -/
inductive BaseDataType
  | ticks
  | quotes
  | quoteBars
  | candles
  | fundamentals
deriving DecidableEq, Repr

/-- Modelled from the spec: SubscriptionResolutionType = (Resolution,
BaseDataType) (standardized_types/enums.rs is not under the sources). -/
structure SubscriptionResolutionType where
  resolution : Resolution
  base_data_type : BaseDataType
deriving DecidableEq, Repr

/-- MarketType variants used by the handler (enums.rs). -/
inductive MarketType
  | forex
  | cfd
  | crypto
  | futures
deriving DecidableEq, Repr

/-- CandleType from subscriptions.rs. -/
inductive CandleType
  | candleStick
  | heikinAshi
  | renko
deriving DecidableEq, Repr

/-- DataSubscription (subscriptions.rs); the vendor is fixed per handler
and the symbol is carried by name. -/
structure DataSubscription where
  symbol_name : String
  resolution : Resolution
  base_data_type : BaseDataType
  market_type : MarketType
  candle_type : Option CandleType
deriving DecidableEq, Repr

/-- DataSubscription::new (subscriptions.rs lines 148 to 168). -/
def DataSubscription.new (symbol_name : String) (resolution : Resolution)
    (base_data_type : BaseDataType) (market_type : MarketType) :
    DataSubscription :=
  let candle_type : Option CandleType :=
    match base_data_type with
    | BaseDataType.candles => some CandleType.candleStick
    | BaseDataType.quoteBars => some CandleType.candleStick
    | BaseDataType.ticks =>
        (match resolution with
         | Resolution.ticks n =>
             if n > 1 then some CandleType.candleStick else none
         | _ => none)
    | _ => none
  { symbol_name := symbol_name
    resolution := resolution
    base_data_type := base_data_type
    market_type := market_type
    candle_type := candle_type }

/-- subscription_resolution_type() of a DataSubscription. -/
def DataSubscription.subResType (s : DataSubscription) :
    SubscriptionResolutionType :=
  { resolution := s.resolution, base_data_type := s.base_data_type }

/-- StrategyMode (enums.rs). -/
inductive StrategyMode
  | backtest
  | live
  | livePaperTrading
deriving DecidableEq, Repr

/-- SymbolSubscriptionHandler state (subscription_handler.rs lines 621 to
628): secondary consolidators keyed first by the primary feed resolution
type, then by the consolidated subscription. -/
structure SymbolSubscriptionHandler where
  primary_subscriptions : List (SubscriptionResolutionType × DataSubscription)
  secondary_subscriptions :
    List (SubscriptionResolutionType × List (DataSubscription × DataSubscription))
  vendor_primary_resolutions : List SubscriptionResolutionType
  vendor_data_types : List BaseDataType
deriving DecidableEq, Repr

/-- Outcome of SymbolSubscriptionHandler::subscribe; the Err variants carry
the reason strings of the source events. -/
inductive SubscribeResult
  | failedFundamentals
  | alreadySubscribed
  | doesNotSupport
  | noLowEnoughResolution
  | ok
deriving DecidableEq, Repr

/-- The has_lower_resolution / lowest_res scan (subscription_handler.rs
lines 807 to 828): folds the vendor primary resolutions, recording whether
a matching kind below the requested resolution exists and the lowest such
resolution. -/
def lowest_scan (prims : List SubscriptionResolutionType)
    (newRes : Resolution) (pred : SubscriptionResolutionType → Bool)
    (init : Bool × Resolution) : Bool × Resolution :=
  prims.foldl (fun acc kind =>
    if kind.resolution.rlt newRes ∧ pred kind then
      (true, if kind.resolution.rlt acc.2 then kind.resolution else acc.2)
    else acc) init

/-- The consolidation tail of subscribe for QuoteBars and Candles
(subscription_handler.rs lines 805 to 897) given the chosen ideal primary
resolution type. -/
def consolidated_subscribe (h : SymbolSubscriptionHandler)
    (new_subscription : DataSubscription)
    (ideal : SubscriptionResolutionType) :
    SubscribeResult × SymbolSubscriptionHandler :=
  if ideal ∉ h.vendor_primary_resolutions then
    let scan₁ := lowest_scan h.vendor_primary_resolutions
      new_subscription.resolution
      (fun kind => kind.base_data_type = new_subscription.base_data_type)
      (false, new_subscription.resolution)
    let scan₂ :=
      if ¬scan₁.1 then
        lowest_scan h.vendor_primary_resolutions new_subscription.resolution
          (fun kind => kind.base_data_type = BaseDataType.quoteBars ∧
            new_subscription.base_data_type = BaseDataType.candles)
          scan₁
      else scan₁
    if ¬scan₂.1 then
      if new_subscription.subResType ∈ h.vendor_primary_resolutions then
        (SubscribeResult.ok,
          { h with primary_subscriptions := (kinsert h.primary_subscriptions
              new_subscription.subResType new_subscription) })
      else (SubscribeResult.noLowEnoughResolution, h)
    else
      let lowest_possible_primary := DataSubscription.new
        new_subscription.symbol_name scan₂.2 new_subscription.base_data_type
        new_subscription.market_type
      let key := lowest_possible_primary.subResType
      let h₁ :=
        if (klookup h.primary_subscriptions key).isSome then h
        else
          let primary₁ := kinsert h.primary_subscriptions key
            lowest_possible_primary
          let secondary₁ :=
            if (klookup h.secondary_subscriptions key).isSome then
              h.secondary_subscriptions
            else kinsert h.secondary_subscriptions key []
          { h with primary_subscriptions := primary₁
                   secondary_subscriptions := secondary₁ }
      let h₂ :=
        match klookup h₁.secondary_subscriptions key with
        | some m =>
            { h₁ with secondary_subscriptions := (kinsert
                h₁.secondary_subscriptions key
                (kinsert m new_subscription new_subscription)) }
        | none => h₁
      (SubscribeResult.ok, h₂)
  else
    let new_primary := DataSubscription.new new_subscription.symbol_name
      ideal.resolution ideal.base_data_type new_subscription.market_type
    let key := new_primary.subResType
    let h₁ :=
      if (klookup h.primary_subscriptions ideal).isSome then h
      else { h with primary_subscriptions := (kinsert h.primary_subscriptions
          key new_primary) }
    let m := (klookup h₁.secondary_subscriptions key).getD []
    (SubscribeResult.ok,
      { h₁ with secondary_subscriptions := (kinsert h₁.secondary_subscriptions
          key (kinsert m new_subscription new_subscription)) })

/-- SymbolSubscriptionHandler::subscribe (subscription_handler.rs lines 698
to 900), decision tree and map updates; the warmup window loads are not
modelled (they do not touch the two maps). -/
def subscribe (h : SymbolSubscriptionHandler) (mode : StrategyMode)
    (new_subscription : DataSubscription) :
    SubscribeResult × SymbolSubscriptionHandler :=
  if new_subscription.base_data_type = BaseDataType.fundamentals then
    (SubscribeResult.failedFundamentals, h)
  else if (match klookup h.primary_subscriptions new_subscription.subResType with
           | some sub => sub == new_subscription
           | none => false) then
    (SubscribeResult.alreadySubscribed, h)
  else if (match klookup h.secondary_subscriptions new_subscription.subResType with
           | some m => (klookup m new_subscription).isSome
           | none => false) then
    (SubscribeResult.alreadySubscribed, h)
  else if new_subscription.subResType ∈ h.vendor_primary_resolutions ∧
      mode = StrategyMode.backtest then
    (SubscribeResult.ok,
      { h with primary_subscriptions := (kinsert h.primary_subscriptions
          new_subscription.subResType new_subscription) })
  else
    match new_subscription.base_data_type with
    | BaseDataType.ticks =>
        if ({ resolution := Resolution.ticks 1, base_data_type := BaseDataType.ticks }
            : SubscriptionResolutionType) ∉ h.vendor_primary_resolutions then
          (SubscribeResult.doesNotSupport, h)
        else
          let key := new_subscription.subResType
          let primary₁ :=
            if (klookup h.primary_subscriptions key).isSome then
              h.primary_subscriptions
            else kinsert h.primary_subscriptions key new_subscription
          let secondary₁ :=
            if (klookup h.secondary_subscriptions key).isSome then
              h.secondary_subscriptions
            else kinsert h.secondary_subscriptions key []
          (SubscribeResult.ok, { h with primary_subscriptions := primary₁
                                        secondary_subscriptions := secondary₁ })
    | BaseDataType.quotes =>
        if ({ resolution := Resolution.instant, base_data_type := BaseDataType.quotes }
            : SubscriptionResolutionType) ∉ h.vendor_primary_resolutions then
          (SubscribeResult.doesNotSupport, h)
        else
          let key := new_subscription.subResType
          let primary₁ :=
            if (klookup h.primary_subscriptions key).isSome then
              h.primary_subscriptions
            else kinsert h.primary_subscriptions key new_subscription
          let secondary₁ :=
            if (klookup h.secondary_subscriptions key).isSome then
              h.secondary_subscriptions
            else kinsert h.secondary_subscriptions key []
          (SubscribeResult.ok, { h with primary_subscriptions := primary₁
                                        secondary_subscriptions := secondary₁ })
    | BaseDataType.quoteBars =>
        -- the guard as written in the source (line 788):
        -- !prims.contains(Quotes Instant) && !!vendor_data_types.contains(QuoteBars);
        -- the double negation makes the second conjunct positive, so the
        -- subscription is rejected precisely when the vendor offers the
        -- QuoteBars data type but no Quotes(Instant) primary.
        if ({ resolution := Resolution.instant, base_data_type := BaseDataType.quotes }
              : SubscriptionResolutionType) ∉ h.vendor_primary_resolutions ∧
            BaseDataType.quoteBars ∈ h.vendor_data_types then
          (SubscribeResult.doesNotSupport, h)
        else
          consolidated_subscribe h new_subscription
            { resolution := Resolution.instant
              base_data_type := BaseDataType.quotes }
    | BaseDataType.candles =>
        -- same !! pattern on vendor_data_types.contains(Candles) (line 794)
        if ({ resolution := Resolution.ticks 1, base_data_type := BaseDataType.ticks }
              : SubscriptionResolutionType) ∉ h.vendor_primary_resolutions ∧
            ({ resolution := Resolution.instant, base_data_type := BaseDataType.quotes }
              : SubscriptionResolutionType) ∉ h.vendor_primary_resolutions ∧
            BaseDataType.candles ∈ h.vendor_data_types then
          (SubscribeResult.doesNotSupport, h)
        else
          let ideal : SubscriptionResolutionType :=
            if ({ resolution := Resolution.ticks 1, base_data_type := BaseDataType.ticks }
                : SubscriptionResolutionType) ∈ h.vendor_primary_resolutions then
              { resolution := Resolution.ticks 1, base_data_type := BaseDataType.ticks }
            else
              { resolution := Resolution.instant, base_data_type := BaseDataType.quotes }
          consolidated_subscribe h new_subscription ideal
    | BaseDataType.fundamentals =>
        -- unreachable: filtered by the first branch
        (SubscribeResult.failedFundamentals, h)

/-- Unsubscribe event. -/
inductive UnsubEvent
  | unsubscribed
  | failedUnsubscribed
deriving DecidableEq, Repr

/-- SymbolSubscriptionHandler::unsubscribe (subscription_handler.rs lines
931 to 951). -/
def unsubscribe (h : SymbolSubscriptionHandler)
    (subscription : DataSubscription) :
    UnsubEvent × SymbolSubscriptionHandler :=
  let key := subscription.subResType
  if (klookup h.primary_subscriptions key).isSome then
    match klookup h.secondary_subscriptions key with
    | some m =>
        let primary₁ :=
          if m.isEmpty then kremove h.primary_subscriptions key
          else h.primary_subscriptions
        (UnsubEvent.unsubscribed,
          { h with primary_subscriptions := primary₁
                   secondary_subscriptions := (kremove h.secondary_subscriptions key) })
    | none => (UnsubEvent.unsubscribed, h)
  else
    match klookup h.secondary_subscriptions key with
    | some m =>
        let ev := if (klookup m subscription).isSome then UnsubEvent.unsubscribed
          else UnsubEvent.failedUnsubscribed
        (ev, { h with secondary_subscriptions := (kinsert h.secondary_subscriptions
            key (kremove m subscription)) })
    | none => (UnsubEvent.unsubscribed, h)

end Subs

namespace Subs

/-- Lookup after removing a key finds nothing, when keys are unique. -/
theorem klookup_kremove_self {κ β : Type} [DecidableEq κ]
    (l : List (κ × β)) (k : κ) (hnd : (l.map Prod.fst).Nodup) :
    klookup (kremove l k) k = none := by
  induction l with
  | nil => rfl
  | cons p rest ih =>
      obtain ⟨k₀, v₀⟩ := p
      simp only [List.map_cons, List.nodup_cons] at hnd
      by_cases hk : k₀ = k
      · rw [kremove, if_pos hk]
        subst hk
        cases hrest : klookup rest k₀ with
        | none => rfl
        | some v =>
            exfalso
            exact hnd.1 (by
              clear hnd ih
              induction rest with
              | nil => simp [klookup] at hrest
              | cons q rs ih₂ =>
                  obtain ⟨k₁, v₁⟩ := q
                  by_cases hq : k₁ = k₀
                  · subst hq; exact List.mem_cons_self _ _
                  · rw [klookup, if_neg hq] at hrest
                    exact List.mem_cons_of_mem _ (ih₂ hrest))
      · rw [kremove, if_neg hk, klookup, if_neg hk]
        exact ih hnd.2

/-- Lookup at another key is unchanged by a removal. -/
theorem klookup_kremove_ne {κ β : Type} [DecidableEq κ]
    (l : List (κ × β)) (k k₁ : κ) (h : k₁ ≠ k) :
    klookup (kremove l k) k₁ = klookup l k₁ := by
  induction l with
  | nil => rfl
  | cons p rest ih =>
      obtain ⟨k₀, v₀⟩ := p
      by_cases hk : k₀ = k
      · rw [kremove, if_pos hk, klookup, if_neg (by rw [hk]; exact fun he => h he.symm)]
      · rw [kremove, if_neg hk, klookup, klookup]
        by_cases hk₁ : k₀ = k₁
        · rw [if_pos hk₁, if_pos hk₁]
        · rw [if_neg hk₁, if_neg hk₁]; exact ih

/-- Lookup after insert-or-replace at the same key. -/
theorem klookup_kinsert_self {κ β : Type} [DecidableEq κ]
    (l : List (κ × β)) (k : κ) (v : β) :
    klookup (kinsert l k v) k = some v := by
  induction l with
  | nil => simp [kinsert, klookup]
  | cons p rest ih =>
      obtain ⟨k₀, v₀⟩ := p
      by_cases hk : k₀ = k
      · rw [kinsert, if_pos hk, klookup, if_pos rfl]
      · rw [kinsert, if_neg hk, klookup, if_neg hk]; exact ih

/-- Lookup at another key is unchanged by an insert-or-replace. -/
theorem klookup_kinsert_ne {κ β : Type} [DecidableEq κ]
    (l : List (κ × β)) (k : κ) (v : β) (k₁ : κ) (h : k₁ ≠ k) :
    klookup (kinsert l k v) k₁ = klookup l k₁ := by
  induction l with
  | nil =>
      simp [kinsert, klookup]
      exact fun he => h he.symm
  | cons p rest ih =>
      obtain ⟨k₀, v₀⟩ := p
      by_cases hk : k₀ = k
      · rw [kinsert, if_pos hk, klookup, if_neg (fun he => h he.symm),
          klookup, if_neg (fun he => h (hk.symm.trans he).symm)]
      · rw [kinsert, if_neg hk, klookup, klookup]
        by_cases hk₁ : k₀ = k₁
        · rw [if_pos hk₁, if_pos hk₁]
        · rw [if_neg hk₁, if_neg hk₁]; exact ih

/-- A vendor that serves QuoteBars at Seconds(5) as a primary resolution
and advertises the QuoteBars data type, but no Quotes(Instant) feed. -/
def c7_handler : SymbolSubscriptionHandler :=
  { primary_subscriptions := []
    secondary_subscriptions := []
    vendor_primary_resolutions :=
      [{ resolution := Resolution.seconds 5, base_data_type := BaseDataType.quoteBars }]
    vendor_data_types := [BaseDataType.quoteBars] }

/-- A one-minute QuoteBars strategy subscription. -/
def c7_sub : DataSubscription :=
  DataSubscription.new "EUR-USD" (Resolution.minutes 1) BaseDataType.quoteBars
    MarketType.forex

/-- The same vendor offering Quotes(Instant) instead. -/
def c7_handler_q : SymbolSubscriptionHandler :=
  { c7_handler with vendor_primary_resolutions :=
      [{ resolution := Resolution.instant, base_data_type := BaseDataType.quotes }] }

/-- C7: primary-feed selection for QuoteBars subscriptions. The claim says a
QuoteBars subscription is rejected only when no feasible primary source
exists, preferring Quotes(Instant) and otherwise consolidating from the
lowest-resolution QuoteBars feed below the requested resolution. The code
diverges: the guard at subscription_handler.rs line 788 rejects whenever the
vendor advertises the QuoteBars data type without a Quotes(Instant) primary
feed (the double negation !! makes the conjunct positive), so the
lowest-resolution QuoteBars fallback at lines 806 to 840 is unreachable for
QuoteBars subscriptions. Evaluated here: a vendor serving QuoteBars at
Seconds(5) - a feasible source strictly below the requested Minutes(1) - has
the one-minute QuoteBars subscription rejected with DataSubscriptionFailed
and the handler unchanged, while with Quotes(Instant) offered the subscribe
succeeds and installs Quotes(Instant) as primary with the consolidator
registered under it, as claimed. -/
theorem quotebars_primary_selection_rejects :
    (subscribe c7_handler StrategyMode.live c7_sub).1 =
      SubscribeResult.doesNotSupport ∧
    (subscribe c7_handler StrategyMode.live c7_sub).2 = c7_handler ∧
    ({ resolution := Resolution.seconds 5, base_data_type := BaseDataType.quoteBars }
      : SubscriptionResolutionType) ∈ c7_handler.vendor_primary_resolutions ∧
    Resolution.rlt (Resolution.seconds 5) (Resolution.minutes 1) = true ∧
    (subscribe c7_handler_q StrategyMode.live c7_sub).1 = SubscribeResult.ok ∧
    klookup (subscribe c7_handler_q StrategyMode.live c7_sub).2.primary_subscriptions
      { resolution := Resolution.instant, base_data_type := BaseDataType.quotes } =
      some (DataSubscription.new "EUR-USD" Resolution.instant BaseDataType.quotes
        MarketType.forex) ∧
    klookup (subscribe c7_handler_q StrategyMode.live c7_sub).2.secondary_subscriptions
      { resolution := Resolution.instant, base_data_type := BaseDataType.quotes } =
      some [(c7_sub, c7_sub)] := by decide

/-- A vendor serving Ticks(1) primaries and the Ticks and Candles data
types. -/
def c9_handler0 : SymbolSubscriptionHandler :=
  { primary_subscriptions := []
    secondary_subscriptions := []
    vendor_primary_resolutions :=
      [{ resolution := Resolution.ticks 1, base_data_type := BaseDataType.ticks }]
    vendor_data_types := [BaseDataType.ticks, BaseDataType.candles] }

/-- A direct Ticks(1) subscription. -/
def c9_tick_sub : DataSubscription :=
  DataSubscription.new "EUR-USD" (Resolution.ticks 1) BaseDataType.ticks
    MarketType.forex

/-- A one-minute Candles subscription, consolidated from the Ticks(1)
primary. -/
def c9_candle_sub : DataSubscription :=
  DataSubscription.new "EUR-USD" (Resolution.minutes 1) BaseDataType.candles
    MarketType.forex

/-- Handler state reached by subscribing the tick subscription and then the
candle subscription in live mode: the Ticks(1) primary carries the candle
consolidator in its secondary map. -/
def c9_state : SymbolSubscriptionHandler :=
  (subscribe (subscribe c9_handler0 StrategyMode.live c9_tick_sub).2
    StrategyMode.live c9_candle_sub).2

/-- C9 counterexample: unsubscribing the Ticks(1) subscription from a state
where the Ticks(1) primary's secondary map holds the distinct one-minute
candle subscription's consolidator removes that entire secondary map - the
sibling consolidator is not left in place as the claim requires - while the
primary registration itself survives even though its secondary map is gone
(unsubscribe, subscription_handler.rs lines 931 to 951, removes the whole
secondary entry under the subscription's own resolution type and drops the
primary only when the map was already empty before the call). -/
theorem unsubscribe_drops_sibling_consolidator :
    klookup c9_state.secondary_subscriptions
      { resolution := Resolution.ticks 1, base_data_type := BaseDataType.ticks } =
      some [(c9_candle_sub, c9_candle_sub)] ∧
    c9_candle_sub ≠ c9_tick_sub ∧
    (unsubscribe c9_state c9_tick_sub).1 = UnsubEvent.unsubscribed ∧
    (unsubscribe c9_state c9_tick_sub).2.secondary_subscriptions = [] ∧
    (unsubscribe c9_state c9_tick_sub).2.primary_subscriptions =
      c9_state.primary_subscriptions := by decide

/-- C9 (amended): what unsubscribe actually does, for unique secondary keys.
When the subscription's own resolution type is registered as a primary and
has a secondary map, the whole map (every consolidator in it) is removed,
and the primary registration is dropped exactly when that map was already
empty; entries under every other resolution type are untouched. When the
resolution type is not a primary but has a secondary map, only the given
subscription's consolidator is removed from that map and nothing else
changes. When the resolution type has no secondary map the handler is
unchanged. -/
theorem unsubscribe_amended (h : SymbolSubscriptionHandler)
    (sub : DataSubscription)
    (hnd : (h.secondary_subscriptions.map Prod.fst).Nodup) :
    ((klookup h.primary_subscriptions sub.subResType).isSome = true →
      ∀ m, klookup h.secondary_subscriptions sub.subResType = some m →
        klookup (unsubscribe h sub).2.secondary_subscriptions sub.subResType = none ∧
        (unsubscribe h sub).2.primary_subscriptions =
          (if m.isEmpty then kremove h.primary_subscriptions sub.subResType
           else h.primary_subscriptions) ∧
        ∀ k₁, k₁ ≠ sub.subResType →
          klookup (unsubscribe h sub).2.secondary_subscriptions k₁ =
            klookup h.secondary_subscriptions k₁) ∧
    ((klookup h.primary_subscriptions sub.subResType).isSome = false →
      ∀ m, klookup h.secondary_subscriptions sub.subResType = some m →
        (unsubscribe h sub).2.primary_subscriptions = h.primary_subscriptions ∧
        klookup (unsubscribe h sub).2.secondary_subscriptions sub.subResType =
          some (kremove m sub) ∧
        ∀ k₁, k₁ ≠ sub.subResType →
          klookup (unsubscribe h sub).2.secondary_subscriptions k₁ =
            klookup h.secondary_subscriptions k₁) ∧
    (klookup h.secondary_subscriptions sub.subResType = none →
      (unsubscribe h sub).2 = h) := by
  refine ⟨?_, ?_, ?_⟩
  · intro hp m hm
    have h2 : (unsubscribe h sub).2 =
        { h with
          primary_subscriptions :=
            (if m.isEmpty then kremove h.primary_subscriptions sub.subResType
             else h.primary_subscriptions)
          secondary_subscriptions :=
            (kremove h.secondary_subscriptions sub.subResType) } := by
      simp [unsubscribe, hp, hm]
    rw [h2]
    exact ⟨klookup_kremove_self _ _ hnd, rfl,
      fun k₁ hk => klookup_kremove_ne _ _ _ hk⟩
  · intro hp m hm
    have h2 : (unsubscribe h sub).2 =
        { h with
          secondary_subscriptions :=
            (kinsert h.secondary_subscriptions sub.subResType (kremove m sub)) } := by
      simp [unsubscribe, hp, hm]
    rw [h2]
    exact ⟨rfl, klookup_kinsert_self _ _ _,
      fun k₁ hk => klookup_kinsert_ne _ _ _ _ hk⟩
  · intro hm
    by_cases hp : (klookup h.primary_subscriptions sub.subResType).isSome = true
    · simp [unsubscribe, hp, hm]
    · simp [unsubscribe, hp, hm]

/-- Witness: the amended unsubscribe theorem applied to the concrete
two-subscription state - after unsubscribing the Ticks(1) subscription the
secondary entry under Ticks(1) is gone, while the entry under an unrelated
resolution type is whatever it was before. -/
theorem unsubscribe_amended_witness :
    klookup (unsubscribe c9_state c9_tick_sub).2.secondary_subscriptions
      { resolution := Resolution.ticks 1, base_data_type := BaseDataType.ticks } =
      none ∧
    klookup (unsubscribe c9_state c9_tick_sub).2.secondary_subscriptions
      { resolution := Resolution.instant, base_data_type := BaseDataType.quotes } =
      klookup c9_state.secondary_subscriptions
        { resolution := Resolution.instant, base_data_type := BaseDataType.quotes } := by
  have h1 := (unsubscribe_amended c9_state c9_tick_sub (by decide)).1 (by decide)
    [(c9_candle_sub, c9_candle_sub)] (by decide)
  exact ⟨h1.1, h1.2.2
    { resolution := Resolution.instant, base_data_type := BaseDataType.quotes }
    (by decide)⟩

end Subs
